import Mathlib

/-!
Verification of core components of the thin-edge.io gateway, against its
design specification.

The development shallowly embeds the relevant Rust code:

* the SmartREST CSV line codec (RFC-4180-style quoting, 16-KiB ceiling),
* `serialize_alarm` from `c8y_api/src/smartrest/alarm.rs`,
* the inventory message constructors from `c8y_api/src/smartrest/inventory.rs`,
* the operation-file name filter from `c8y_api/src/smartrest/operations.rs`,
* `OperationWorkflow::try_new` from `tedge_api/src/workflow/mod.rs`,
* the old-agent compatibility adapter from
  `c8y_mapper_ext/src/compatibility_adapter.rs`,
* the agent state repository model from `tedge_agent/src/state_repository/state.rs`,
* the entity-store registration model (the reference model `State` of
  `tedge_agent/src/entity_manager/tests.rs`, which the property test
  `it_works_for_any_registration_order` pins against the production store).

Strings are represented as `List Char`; machine integers that never overflow in
the modelled code are represented as `Nat`.
-/

namespace Smartrest

/-- Special characters triggering RFC-4180 quoting of a CSV field.

Modelled from the spec: the serializer applies quoting "when a field contains
comma, quote, or newline" (the concrete CSV writer of the repository is not
part of the covered sources). -/
def isSpecialChar (c : Char) : Bool :=
  c == ',' || c == '"' || c == '\n'

/-- Whether a field needs quoting: it contains a comma, a double quote or a newline. -/
def needsQuote (f : List Char) : Bool :=
  f.any isSpecialChar

/-- Doubling of embedded double quotes inside a quoted field. -/
def escapeQuotes : List Char → List Char
  | [] => []
  | c :: rest => if c == '"' then '"' :: '"' :: escapeQuotes rest else c :: escapeQuotes rest

/-- Render one CSV field: quoted (with doubled quotes) exactly when it contains
a comma, a double quote or a newline. -/
def quoteField (f : List Char) : List Char :=
  if needsQuote f then '"' :: (escapeQuotes f ++ ['"']) else f

/-- Join rendered fields with commas; no trailing separator. -/
def joinFields : List (List Char) → List Char
  | [] => []
  | [f] => f
  | f :: rest => f ++ ',' :: joinFields rest

/-- Serialize a record: each field rendered by `quoteField`, joined by commas. -/
def serializeRecord (fields : List (List Char)) : List Char :=
  joinFields (fields.map quoteField)

/-- Hard payload ceiling. Modelled from the spec: "a hard 16-KiB payload ceiling". -/
def MAX_PAYLOAD_SIZE : Nat := 16 * 1024

/-- Typed error returned when a serialized payload exceeds the ceiling. -/
inductive SmartrestPayloadError where
  | TooLarge (size : Nat)
  deriving DecidableEq

/-- Modelled from the spec: `SmartrestPayload::serialize` (the payload module is
not part of the covered sources) serializes the fields as one CSV record and
rejects the result with a typed error when it exceeds the 16-KiB ceiling. -/
def SmartrestPayload_serialize (fields : List (List Char)) :
    Except SmartrestPayloadError (List Char) :=
  let s := serializeRecord fields
  if s.length ≤ MAX_PAYLOAD_SIZE then .ok s else .error (.TooLarge s.length)

/-- Modes of the CSV reading state machine. -/
inductive CsvMode where
  | fieldStart
  | raw
  | quoted
  | afterQuote

/-- CSV reading state machine. Modelled from the spec: "parse(serialize(s)) = s"
names a CSV reader for the SmartREST line format; this is a strict RFC-4180
reader (a quote may only open a field, and doubled quotes inside a quoted field
denote one quote). `f` is the current field accumulated in reverse, `acc` the
completed fields in reverse order. -/
def csvGo : CsvMode → List Char → List Char → List (List Char) →
    Option (List (List Char))
  | .fieldStart, [], _, acc => some ((([] : List Char) :: acc).reverse)
  | .fieldStart, c :: rest, _, acc =>
    if c == '"' then csvGo .quoted rest [] acc
    else if c == ',' then csvGo .fieldStart rest [] ([] :: acc)
    else csvGo .raw rest [c] acc
  | .raw, [], f, acc => some ((f.reverse :: acc).reverse)
  | .raw, c :: rest, f, acc =>
    if c == ',' then csvGo .fieldStart rest [] (f.reverse :: acc)
    else if c == '"' then none
    else csvGo .raw rest (c :: f) acc
  | .quoted, [], _, _ => none
  | .quoted, c :: rest, f, acc =>
    if c == '"' then csvGo .afterQuote rest f acc
    else csvGo .quoted rest (c :: f) acc
  | .afterQuote, [], f, acc => some ((f.reverse :: acc).reverse)
  | .afterQuote, c :: rest, f, acc =>
    if c == '"' then csvGo .quoted rest ('"' :: f) acc
    else if c == ',' then csvGo .fieldStart rest [] (f.reverse :: acc)
    else none

/-- Parse one CSV record into its list of fields. -/
def parseRecord (cs : List Char) : Option (List (List Char)) :=
  csvGo .fieldStart cs [] []

theorem needsQuote_cons {c : Char} {f : List Char} (h : needsQuote (c :: f) = false) :
    (c == ',') = false ∧ (c == '"') = false ∧ needsQuote f = false := by
  simp only [needsQuote, List.any_cons, Bool.or_eq_false_iff] at h
  obtain ⟨hs, hrest⟩ := h
  simp only [isSpecialChar, Bool.or_eq_false_iff] at hs
  exact ⟨hs.1.1, hs.1.2, hrest⟩

theorem csvGo_raw_comma (f : List Char) : ∀ (g : List Char) (acc : List (List Char))
    (k : List Char), needsQuote f = false →
    csvGo .raw (f ++ ',' :: k) g acc = csvGo .fieldStart k [] ((g.reverse ++ f) :: acc) := by
  induction f with
  | nil => intro g acc k _; simp [csvGo]
  | cons c f ih =>
    intro g acc k h
    obtain ⟨h1, h2, h3⟩ := needsQuote_cons h
    simp only [List.cons_append, csvGo, List.append_eq, h1, h2, Bool.false_eq_true, if_false]
    rw [ih (c :: g) acc k h3]
    simp

theorem csvGo_raw_end (f : List Char) : ∀ (g : List Char) (acc : List (List Char)),
    needsQuote f = false →
    csvGo .raw f g acc = some (((g.reverse ++ f) :: acc).reverse) := by
  induction f with
  | nil => intro g acc _; simp [csvGo]
  | cons c f ih =>
    intro g acc h
    obtain ⟨h1, h2, h3⟩ := needsQuote_cons h
    simp only [csvGo, List.append_eq, h1, h2, Bool.false_eq_true, if_false]
    rw [ih (c :: g) acc h3]
    simp

theorem csvGo_quoted_escape (f : List Char) : ∀ (g : List Char) (acc : List (List Char))
    (k : List Char),
    csvGo .quoted (escapeQuotes f ++ '"' :: k) g acc = csvGo .afterQuote k (f.reverse ++ g) acc := by
  induction f with
  | nil => intro g acc k; simp [escapeQuotes, csvGo]
  | cons c f ih =>
    intro g acc k
    by_cases hc : c = '"'
    · subst hc
      simp only [escapeQuotes, List.cons_append, csvGo, List.append_eq,
        (by rfl : (('"' : Char) == '"') = true), if_true]
      rw [ih ('"' :: g) acc k]
      simp
    · have hc' : (c == '"') = false := by simp [hc]
      simp only [escapeQuotes, hc', Bool.false_eq_true, if_false, List.cons_append, csvGo,
        List.append_eq]
      rw [ih (c :: g) acc k]
      simp

theorem csvGo_field_comma (f : List Char) (acc : List (List Char)) (k : List Char) :
    csvGo .fieldStart (quoteField f ++ ',' :: k) [] acc = csvGo .fieldStart k [] (f :: acc) := by
  by_cases hq : needsQuote f = true
  · simp only [quoteField, hq, if_true]
    simp only [List.cons_append, csvGo, List.append_eq,
      (by rfl : (('"' : Char) == '"') = true), if_true]
    rw [show (escapeQuotes f ++ ['"']) ++ ',' :: k = escapeQuotes f ++ '"' :: ',' :: k by simp]
    rw [csvGo_quoted_escape f [] acc (',' :: k)]
    simp [csvGo]
  · have hq' : needsQuote f = false := by simpa using hq
    simp only [quoteField, hq', Bool.false_eq_true, if_false]
    cases f with
    | nil => simp [csvGo]
    | cons c f =>
      obtain ⟨h1, h2, h3⟩ := needsQuote_cons hq'
      simp only [List.cons_append, csvGo, List.append_eq, h1, h2, Bool.false_eq_true, if_false]
      rw [csvGo_raw_comma f [c] acc k h3]
      simp

theorem csvGo_field_end (f : List Char) (acc : List (List Char)) :
    csvGo .fieldStart (quoteField f) [] acc = some ((f :: acc).reverse) := by
  by_cases hq : needsQuote f = true
  · simp only [quoteField, hq, if_true]
    simp only [csvGo, List.append_eq, (by rfl : (('"' : Char) == '"') = true), if_true]
    rw [show escapeQuotes f ++ ['"'] = escapeQuotes f ++ '"' :: ([] : List Char) by simp]
    rw [csvGo_quoted_escape f [] acc []]
    simp [csvGo]
  · have hq' : needsQuote f = false := by simpa using hq
    simp only [quoteField, hq', Bool.false_eq_true, if_false]
    cases f with
    | nil => simp [csvGo]
    | cons c f =>
      obtain ⟨h1, h2, h3⟩ := needsQuote_cons hq'
      simp only [csvGo, List.append_eq, h1, h2, Bool.false_eq_true, if_false]
      rw [csvGo_raw_end f [c] acc h3]
      simp

theorem csvGo_serialize (fields : List (List Char)) : fields ≠ [] →
    ∀ acc, csvGo .fieldStart (serializeRecord fields) [] acc = some (acc.reverse ++ fields) := by
  induction fields with
  | nil => intro h; exact absurd rfl h
  | cons f rest ih =>
    intro _ acc
    cases rest with
    | nil =>
      simp only [serializeRecord, List.map_cons, List.map_nil, joinFields]
      rw [csvGo_field_end f acc]
      simp
    | cons f2 rest2 =>
      have hne : f2 :: rest2 ≠ [] := by simp
      simp only [serializeRecord, List.map_cons, joinFields]
      rw [csvGo_field_comma f acc _]
      have := ih hne (f :: acc)
      simp only [serializeRecord, List.map_cons] at this
      rw [this]
      simp

/-- Round trip of the CSV codec: parsing a serialized record recovers the fields. -/
theorem parse_serializeRecord (fields : List (List Char)) (h : fields ≠ []) :
    parseRecord (serializeRecord fields) = some fields := by
  have := csvGo_serialize fields h []
  simpa [parseRecord] using this

theorem needsQuote_iff (f : List Char) :
    needsQuote f = true ↔ ∃ c ∈ f, c = ',' ∨ c = '"' ∨ c = '\n' := by
  simp [needsQuote, List.any_eq_true, isSpecialChar, or_assoc]

theorem serializeRecord_single (f : List Char) (h : needsQuote f = false) :
    serializeRecord [f] = f := by
  simp [serializeRecord, joinFields, quoteField, h]

theorem needsQuote_replicate_a (n : Nat) : needsQuote (List.replicate n 'a') = false := by
  simp [needsQuote, List.any_eq_true, List.mem_replicate, isSpecialChar]

end Smartrest

/-- Claim C4: the SmartREST serializer quotes a field exactly when it contains a
comma, a double quote, or a newline, doubling embedded double quotes; and for
every non-empty list of fields of visible ASCII (commas and quotes included),
parsing the serialized line returns the original field list. -/
theorem C4_smartrest_quoting_roundtrip :
    (∀ f : List Char,
      (Smartrest.quoteField f = '"' :: (Smartrest.escapeQuotes f ++ ['"']) ↔
        ∃ c ∈ f, c = ',' ∨ c = '"' ∨ c = '\n') ∧
      (¬ (∃ c ∈ f, c = ',' ∨ c = '"' ∨ c = '\n') → Smartrest.quoteField f = f)) ∧
    (∀ fields : List (List Char), fields ≠ [] →
      (∀ f ∈ fields, ∀ c ∈ f, 32 ≤ c.toNat ∧ c.toNat ≤ 126) →
      Smartrest.parseRecord (Smartrest.serializeRecord fields) = some fields) := by
  constructor
  · intro f
    constructor
    · constructor
      · intro hq
        by_contra hno
        have hfalse : Smartrest.needsQuote f = false := by
          rw [← Smartrest.needsQuote_iff] at hno
          simpa using hno
        rw [Smartrest.quoteField, hfalse] at hq
        simp only [Bool.false_eq_true, if_false] at hq
        have : '"' ∈ f := by rw [hq]; exact List.mem_cons_self _ _
        have : Smartrest.needsQuote f = true := by
          rw [Smartrest.needsQuote_iff]; exact ⟨'"', this, Or.inr (Or.inl rfl)⟩
        rw [this] at hfalse; cases hfalse
      · intro hc
        have ht : Smartrest.needsQuote f = true := (Smartrest.needsQuote_iff f).2 hc
        simp [Smartrest.quoteField, ht]
    · intro hno
      have hfalse : Smartrest.needsQuote f = false := by
        by_contra hne
        exact hno ((Smartrest.needsQuote_iff f).1 (by simpa using hne))
      simp [Smartrest.quoteField, hfalse]
  · intro fields hne _
    exact Smartrest.parse_serializeRecord fields hne

/-- Witness for C4 at concrete fields containing a comma and a quote. -/
theorem C4_witness :
    Smartrest.parseRecord (Smartrest.serializeRecord
        ["301".data, "a,b".data, "say \"hi\"".data]) =
      some ["301".data, "a,b".data, "say \"hi\"".data] :=
  C4_smartrest_quoting_roundtrip.2 _ (by decide) (by decide)

/-- Claim C6: SmartREST payload serialization enforces a hard 16-KiB ceiling: a
payload of exactly 16 KiB serializes successfully, and a payload of 16 KiB plus
one byte is rejected with a typed error. -/
theorem C6_payload_ceiling :
    (∀ fields : List (List Char),
      (Smartrest.serializeRecord fields).length = 16 * 1024 →
      Smartrest.SmartrestPayload_serialize fields = .ok (Smartrest.serializeRecord fields)) ∧
    (∀ fields : List (List Char),
      (Smartrest.serializeRecord fields).length = 16 * 1024 + 1 →
      Smartrest.SmartrestPayload_serialize fields =
        .error (.TooLarge (16 * 1024 + 1))) := by
  constructor
  · intro fields h
    rw [Smartrest.SmartrestPayload_serialize]
    simp only [h, Smartrest.MAX_PAYLOAD_SIZE]
    norm_num
  · intro fields h
    rw [Smartrest.SmartrestPayload_serialize]
    simp only [h, Smartrest.MAX_PAYLOAD_SIZE]
    norm_num

/-- Witness for C6 at a single field of 16384 (resp. 16385) characters. -/
theorem C6_witness :
    Smartrest.SmartrestPayload_serialize [List.replicate (16 * 1024) 'a'] =
      .ok (List.replicate (16 * 1024) 'a') ∧
    Smartrest.SmartrestPayload_serialize [List.replicate (16 * 1024 + 1) 'a'] =
      .error (.TooLarge (16 * 1024 + 1)) := by
  constructor
  · have hser := Smartrest.serializeRecord_single (List.replicate (16 * 1024) 'a')
      (Smartrest.needsQuote_replicate_a _)
    have hlen : (Smartrest.serializeRecord [List.replicate (16 * 1024) 'a']).length =
        16 * 1024 := by rw [hser, List.length_replicate]
    have := C6_payload_ceiling.1 _ hlen
    rwa [hser] at this
  · have hser := Smartrest.serializeRecord_single (List.replicate (16 * 1024 + 1) 'a')
      (Smartrest.needsQuote_replicate_a _)
    have hlen : (Smartrest.serializeRecord [List.replicate (16 * 1024 + 1) 'a']).length =
        16 * 1024 + 1 := by rw [hser, List.length_replicate]
    exact C6_payload_ceiling.2 _ hlen

namespace C8y

/-- Alarm severities, from `json_c8y::AlarmSeverity`. -/
inductive AlarmSeverity where
  | Critical
  | Major
  | Minor
  | Warning
  deriving DecidableEq

/-- SmartREST template code for creating a critical alarm. The codes are pinned
by the spec's catalog and by the test vectors of `smartrest/alarm.rs`. -/
def CREATE_CRITICAL_ALARM : Nat := 301

/-- SmartREST template code for creating a major alarm. -/
def CREATE_MAJOR_ALARM : Nat := 302

/-- SmartREST template code for creating a minor alarm. -/
def CREATE_MINOR_ALARM : Nat := 303

/-- SmartREST template code for creating a warning alarm. -/
def CREATE_WARNING_ALARM : Nat := 304

/-- SmartREST template code for clearing an alarm. -/
def CLEAR_EXISTING_ALARM : Nat := 306

/-- Modelled from the spec: a timestamp with a UTC offset (the `time` crate's
`OffsetDateTime` is external to the repository). -/
structure OffsetDateTime where
  year : Nat
  month : Nat
  day : Nat
  hour : Nat
  minute : Nat
  second : Nat
  offNeg : Bool
  offHour : Nat
  offMinute : Nat

/-- Two-digit zero-padded decimal rendering. -/
def pad2 (n : Nat) : List Char :=
  [Nat.digitChar (n / 10 % 10), Nat.digitChar (n % 10)]

/-- Four-digit zero-padded decimal rendering. -/
def pad4 (n : Nat) : List Char :=
  [Nat.digitChar (n / 1000 % 10), Nat.digitChar (n / 100 % 10),
   Nat.digitChar (n / 10 % 10), Nat.digitChar (n % 10)]

/-- Modelled from the spec: RFC 3339 rendering of a timestamp, as produced by
the `time` crate's `Rfc3339` well-known format (no fractional seconds; a zero
offset renders as Z). -/
def formatRfc3339 (t : OffsetDateTime) : List Char :=
  pad4 t.year ++ '-' :: pad2 t.month ++ '-' :: pad2 t.day ++ 'T' :: pad2 t.hour ++
    ':' :: pad2 t.minute ++ ':' :: pad2 t.second ++
    (if t.offHour = 0 ∧ t.offMinute = 0 then ['Z']
     else (if t.offNeg then '-' else '+') :: pad2 t.offHour ++ ':' :: pad2 t.offMinute)

/-- Source of an alarm raised on behalf of a child entity, from `json_c8y::SourceInfo`. -/
structure SourceInfo where
  id : List Char
  source_type : List Char

/-- An alarm-creation payload, from `json_c8y::C8yCreateAlarm`. The free-form
`fragments` map is carried as inert data (it does not enter `serialize_alarm`). -/
structure C8yCreateAlarm where
  alarm_type : List Char
  source : Option SourceInfo
  severity : AlarmSeverity
  text : List Char
  time : OffsetDateTime
  fragments : List (List Char × List Char)

/-- An alarm-clearing payload, from `json_c8y::C8yClearAlarm`. -/
structure C8yClearAlarm where
  alarm_type : List Char
  source : Option SourceInfo

/-- A Cumulocity alarm message, from `json_c8y::C8yAlarm`. -/
inductive C8yAlarm where
  | Create (alarm : C8yCreateAlarm)
  | Clear (alarm : C8yClearAlarm)

/-- Decimal rendering of a numeric SmartREST field. -/
def natToChars (n : Nat) : List Char := Nat.toDigits 10 n

/-- The SmartREST template code chosen for each severity in `serialize_alarm`. -/
def severityCode : AlarmSeverity → Nat
  | .Critical => CREATE_CRITICAL_ALARM
  | .Major => CREATE_MAJOR_ALARM
  | .Minor => CREATE_MINOR_ALARM
  | .Warning => CREATE_WARNING_ALARM

/-- Embedding of `serialize_alarm` from `c8y_api/src/smartrest/alarm.rs`.
The `.expect(..)` calls of the source (reached only when the payload exceeds
the size ceiling) are modelled by `none`. -/
def serialize_alarm : C8yAlarm → Option (List Char)
  | .Create alarm =>
    (Smartrest.SmartrestPayload_serialize
      [natToChars (severityCode alarm.severity), alarm.alarm_type, alarm.text,
        formatRfc3339 alarm.time]).toOption
  | .Clear alarm =>
    (Smartrest.SmartrestPayload_serialize
      [natToChars CLEAR_EXISTING_ALARM, alarm.alarm_type]).toOption

end C8y

/-- Claim C5: `serialize_alarm` maps an alarm-create with severity
critical/major/minor/warning to a SmartREST line whose first field is
301/302/303/304 respectively, followed by the alarm type, the alarm text and
the RFC 3339 timestamp; and maps an alarm-clear to the line `306,<alarm type>`. -/
theorem C5_serialize_alarm :
    (C8y.severityCode .Critical = 301 ∧ C8y.severityCode .Major = 302 ∧
      C8y.severityCode .Minor = 303 ∧ C8y.severityCode .Warning = 304) ∧
    (∀ alarm : C8y.C8yCreateAlarm,
      (Smartrest.serializeRecord [C8y.natToChars (C8y.severityCode alarm.severity),
          alarm.alarm_type, alarm.text, C8y.formatRfc3339 alarm.time]).length ≤
        Smartrest.MAX_PAYLOAD_SIZE →
      ∃ line, C8y.serialize_alarm (.Create alarm) = some line ∧
        Smartrest.parseRecord line =
          some [C8y.natToChars (C8y.severityCode alarm.severity), alarm.alarm_type,
            alarm.text, C8y.formatRfc3339 alarm.time]) ∧
    (∀ alarm : C8y.C8yClearAlarm,
      Smartrest.needsQuote alarm.alarm_type = false →
      alarm.alarm_type.length + 4 ≤ Smartrest.MAX_PAYLOAD_SIZE →
      C8y.serialize_alarm (.Clear alarm) = some ("306,".data ++ alarm.alarm_type)) := by
  refine ⟨⟨rfl, rfl, rfl, rfl⟩, ?_, ?_⟩
  · intro alarm hsize
    refine ⟨Smartrest.serializeRecord [C8y.natToChars (C8y.severityCode alarm.severity),
      alarm.alarm_type, alarm.text, C8y.formatRfc3339 alarm.time], ?_, ?_⟩
    · simp [C8y.serialize_alarm, Smartrest.SmartrestPayload_serialize, hsize, Except.toOption]
    · exact Smartrest.parse_serializeRecord _ (by simp)
  · intro alarm hq hsize
    have h306 : C8y.natToChars C8y.CLEAR_EXISTING_ALARM = ['3', '0', '6'] := rfl
    have hser : Smartrest.serializeRecord
        [C8y.natToChars C8y.CLEAR_EXISTING_ALARM, alarm.alarm_type] =
        '3' :: '0' :: '6' :: ',' :: alarm.alarm_type := by
      rw [Smartrest.serializeRecord, h306]
      simp [Smartrest.joinFields, Smartrest.quoteField, hq,
        (by decide : Smartrest.needsQuote ['3', '0', '6'] = false)]
    have hlen : (Smartrest.serializeRecord
        [C8y.natToChars C8y.CLEAR_EXISTING_ALARM, alarm.alarm_type]).length ≤
        Smartrest.MAX_PAYLOAD_SIZE := by
      rw [hser]
      simp only [List.length_cons]
      omega
    simp only [C8y.serialize_alarm, Smartrest.SmartrestPayload_serialize]
    rw [if_pos hlen, hser]
    rfl

/-- Witness for C5: the critical-alarm and clear-alarm test vectors of
`smartrest/alarm.rs`. -/
theorem C5_witness :
    (∃ line,
      C8y.serialize_alarm (.Create ⟨"temperature_alarm".data, none, .Critical,
        "I raised it".data, ⟨2021, 4, 23, 19, 0, 0, false, 5, 0⟩, []⟩) = some line ∧
      Smartrest.parseRecord line =
        some [C8y.natToChars (C8y.severityCode .Critical), "temperature_alarm".data,
          "I raised it".data, C8y.formatRfc3339 ⟨2021, 4, 23, 19, 0, 0, false, 5, 0⟩]) ∧
    C8y.serialize_alarm (.Clear ⟨"temperature_alarm".data, none⟩) =
      some ("306,".data ++ "temperature_alarm".data) :=
  ⟨C5_serialize_alarm.2.1 _ (by decide), C5_serialize_alarm.2.2 _ (by decide) (by decide)⟩

namespace Inventory

/-- Typed error for an invalid inventory field, from `smartrest/inventory.rs`. -/
structure InvalidValueError where
  field_name : List Char
  value : List Char
  deriving DecidableEq

/-- SmartREST template code for creating a child device (spec catalog). -/
def CHILD_DEVICE_CREATION : Nat := 101

/-- SmartREST template code for creating a service (spec catalog). -/
def SERVICE_CREATION : Nat := 102

/-- Modelled from the spec: the upstream SmartREST publish topic derived from
the parent chain (`smartrest/topic.rs` is not part of the covered sources; the
topic value does not enter the validation claims). -/
def publish_topic_from_parent (parent : Option (List Char))
    (main_device_id pfx : List Char) : List Char :=
  match parent with
  | some p => if p = main_device_id then pfx ++ "/s/us".data else pfx ++ "/s/us/".data ++ p
  | none => pfx ++ "/s/us".data

/-- An outbound MQTT message (topic and payload). -/
structure MqttMessage where
  topic : List Char
  payload : List Char

/-- Rendering of a boolean SmartREST field. -/
def boolChars (b : Bool) : List Char :=
  if b then "true".data else "false".data

/-- Embedding of `child_device_creation_message` from `smartrest/inventory.rs`.
The `.expect(..)` on an oversized payload (a panic in the source) is modelled
by `.ok none`. -/
def child_device_creation_message (child_id : List Char)
    (device_name device_type parent : Option (List Char))
    (main_device_id pfx : List Char) (with_device_marker : Bool) :
    Except InvalidValueError (Option MqttMessage) :=
  if child_id = [] then .error ⟨"child_id".data, child_id⟩
  else if device_name = some [] then .error ⟨"device_name".data, []⟩
  else if device_type = some [] then .error ⟨"device_type".data, []⟩
  else
    match Smartrest.SmartrestPayload_serialize
      [C8y.natToChars CHILD_DEVICE_CREATION, child_id, device_name.getD child_id,
        device_type.getD "thin-edge.io-child".data, boolChars with_device_marker] with
    | .ok payload =>
      .ok (some ⟨publish_topic_from_parent parent main_device_id pfx, payload⟩)
    | .error _ => .ok none

/-- Embedding of `service_creation_message_payload` from `smartrest/inventory.rs`.
The `.expect(..)` on an oversized payload is modelled by `.ok none`. -/
def service_creation_message_payload
    (service_id service_name service_type service_status : List Char) :
    Except InvalidValueError (Option (List Char)) :=
  if service_id = [] then .error ⟨"service_id".data, service_id⟩
  else if service_name = [] then .error ⟨"service_name".data, service_name⟩
  else if service_type = [] then .error ⟨"service_type".data, service_type⟩
  else if service_status = [] then .error ⟨"service_status".data, service_status⟩
  else
    match Smartrest.SmartrestPayload_serialize
      [C8y.natToChars SERVICE_CREATION, service_id, service_type, service_name,
        service_status] with
    | .ok payload => .ok (some payload)
    | .error _ => .ok none

end Inventory

/-- Claim C10: `child_device_creation_message` returns an `InvalidValueError`
exactly when `child_id` is empty or a provided `device_name` or `device_type`
is the empty string; `service_creation_message_payload` returns an
`InvalidValueError` exactly when any of its four fields is the empty string;
in every error case no message is produced. -/
theorem C10_inventory_validation :
    (∀ (child_id : List Char) (device_name device_type parent : Option (List Char))
        (main_id pfx : List Char) (marker : Bool),
      (∃ e, Inventory.child_device_creation_message child_id device_name device_type
          parent main_id pfx marker = .error e) ↔
        (child_id = [] ∨ device_name = some [] ∨ device_type = some [])) ∧
    (∀ sid sname stype sstatus : List Char,
      (∃ e, Inventory.service_creation_message_payload sid sname stype sstatus =
          .error e) ↔
        (sid = [] ∨ sname = [] ∨ stype = [] ∨ sstatus = [])) := by
  constructor
  · intro cid dn dt p m px mk
    unfold Inventory.child_device_creation_message
    split_ifs with h1 h2 h3
    · simp [h1]
    · simp [h1, h2]
    · simp [h1, h2, h3]
    · rcases hmatch : Smartrest.SmartrestPayload_serialize
        [C8y.natToChars Inventory.CHILD_DEVICE_CREATION, cid, dn.getD cid,
          dt.getD "thin-edge.io-child".data, Inventory.boolChars mk] with pl | e
      all_goals simp [hmatch, h1, h2, h3]
  · intro sid sname stype sstatus
    unfold Inventory.service_creation_message_payload
    split_ifs with h1 h2 h3 h4
    · simp [h1]
    · simp [h1, h2]
    · simp [h1, h2, h3]
    · simp [h1, h2, h3, h4]
    · rcases hmatch : Smartrest.SmartrestPayload_serialize
        [C8y.natToChars Inventory.SERVICE_CREATION, sid, stype, sname, sstatus]
        with pl | e
      all_goals simp [hmatch, h1, h2, h3, h4]

namespace Operations

/-- Embedding of `is_valid_operation_name` from `smartrest/operations.rs`.
Rust's `char::is_ascii_alphabetic` is `Char.isAlpha`; the Unicode-aware
`char::is_numeric` coincides on ASCII characters with the decimal digits and is
modelled by `Char.isDigit` (the theorems are restricted to ASCII names). -/
def is_valid_operation_name (operation : List Char) : Bool :=
  operation.all (fun c => c.isAlpha || c.isDigit || c == '_')

/-- Exec details of an operation file, from `smartrest/operations.rs`. -/
structure OnMessageExec where
  command : Option (List Char)
  on_message : Option (List Char)
  topic : Option (List Char)
  user : Option (List Char)

/-- One operation definition, from `smartrest/operations.rs`. -/
structure Operation where
  name : List Char
  exec : Option OnMessageExec

/-- The collected operations, from `smartrest/operations.rs`: the list of
operations and the trigger index (`operations_by_trigger`). -/
structure Operations where
  operations : List Operation
  operations_by_trigger : List (List Char × Nat)

/-- The empty `Operations` value (`Operations::default`). -/
def emptyOperations : Operations := ⟨[], []⟩

/-- Key-value insertion with replacement, modelling `HashMap::insert`. -/
def assocInsert (m : List (List Char × Nat)) (k : List Char) (v : Nat) :
    List (List Char × Nat) :=
  match m with
  | [] => [(k, v)]
  | (k', v') :: rest => if k' = k then (k, v) :: rest else (k', v') :: assocInsert rest k v

/-- Embedding of `Operations::add_operation`: ignore the operation when one
with the same name is already present, otherwise record its trigger (if any)
and append it. -/
def add_operation (ops : Operations) (operation : Operation) : Operations :=
  if ops.operations.any (fun o => o.name == operation.name) then ops
  else
    let trig :=
      match operation.exec with
      | some detail =>
        match detail.on_message with
        | some m => assocInsert ops.operations_by_trigger m ops.operations.length
        | none => ops.operations_by_trigger
      | none => ops.operations_by_trigger
    ⟨ops.operations ++ [operation], trig⟩

/-- A directory entry as consumed by `get_operations`. The TOML parse of the
file body (the external `toml` crate) is abstracted into the entry as its
pre-computed result. -/
structure DirFile where
  name : List Char
  parsed : Except Unit Operation

/-- Errors of `get_operations`; only the TOML-parse error is reachable in the
modelled fragment. -/
inductive OperationsError where
  | TomlError (file : List Char)

/-- The loop of `get_operations`: skip entries whose name fails
`is_valid_operation_name`, abort on a parse error, otherwise install the file
name as the operation name and add the operation. -/
def get_operations_go (ops : Operations) :
    List DirFile → Except OperationsError Operations
  | [] => .ok ops
  | file :: rest =>
    if is_valid_operation_name file.name then
      match file.parsed with
      | .ok details => get_operations_go (add_operation ops { details with name := file.name }) rest
      | .error _ => .error (.TomlError file.name)
    else get_operations_go ops rest

/-- Embedding of `get_operations` from `smartrest/operations.rs`, over a
modelled directory listing. -/
def get_operations (files : List DirFile) : Except OperationsError Operations :=
  get_operations_go emptyOperations files

/-- The operation names held by an `Operations` value (`get_operations_list`). -/
def opNames (ops : Operations) : List (List Char) :=
  ops.operations.map (fun o => o.name)

theorem mem_opNames_add (ops : Operations) (o : Operation) (n : List Char) :
    n ∈ opNames (add_operation ops o) ↔ n ∈ opNames ops ∨ n = o.name := by
  unfold add_operation
  by_cases h : ops.operations.any (fun o' => o'.name == o.name) = true
  · rw [if_pos h]
    simp only [List.any_eq_true, beq_iff_eq] at h
    obtain ⟨o', ho', hname⟩ := h
    constructor
    · exact fun hm => Or.inl hm
    · rintro (hm | rfl)
      · exact hm
      · exact List.mem_map.2 ⟨o', ho', hname⟩
  · rw [if_neg h]
    simp [opNames, List.mem_map, eq_comm]

theorem get_operations_go_ok (files : List DirFile) : ∀ ops : Operations,
    (∀ f ∈ files, is_valid_operation_name f.name = true → ∃ op, f.parsed = .ok op) →
    ∃ r, get_operations_go ops files = .ok r ∧
      ∀ n, n ∈ opNames r ↔
        (n ∈ opNames ops ∨ ∃ f ∈ files, f.name = n ∧ is_valid_operation_name f.name = true) := by
  induction files with
  | nil =>
    intro ops _
    exact ⟨ops, rfl, by simp⟩
  | cons file rest ih =>
    intro ops hparse
    by_cases hv : is_valid_operation_name file.name = true
    · obtain ⟨op, hop⟩ := hparse file (List.mem_cons_self _ _) hv
      have hrest : ∀ f ∈ rest, is_valid_operation_name f.name = true → ∃ o, f.parsed = .ok o :=
        fun f hf => hparse f (List.mem_cons_of_mem _ hf)
      obtain ⟨r, hr, hmem⟩ := ih (add_operation ops { op with name := file.name }) hrest
      refine ⟨r, ?_, ?_⟩
      · simp only [get_operations_go, hv, if_true, hop]
        exact hr
      · intro n
        rw [hmem n, mem_opNames_add]
        constructor
        · rintro ((hm | rfl) | ⟨f, hf, rfl, hvf⟩)
          · exact Or.inl hm
          · exact Or.inr ⟨file, List.mem_cons_self _ _, rfl, hv⟩
          · exact Or.inr ⟨f, List.mem_cons_of_mem _ hf, rfl, hvf⟩
        · rintro (hm | ⟨f, hf, rfl, hvf⟩)
          · exact Or.inl (Or.inl hm)
          · rcases List.mem_cons.1 hf with rfl | hf'
            · exact Or.inl (Or.inr rfl)
            · exact Or.inr ⟨f, hf', rfl, hvf⟩
    · have hrest : ∀ f ∈ rest, is_valid_operation_name f.name = true → ∃ o, f.parsed = .ok o :=
        fun f hf => hparse f (List.mem_cons_of_mem _ hf)
      obtain ⟨r, hr, hmem⟩ := ih ops hrest
      refine ⟨r, ?_, ?_⟩
      · simp only [get_operations_go, hv, if_false]
        exact hr
      · intro n
        rw [hmem n]
        constructor
        · rintro (hm | ⟨f, hf, rfl, hvf⟩)
          · exact Or.inl hm
          · exact Or.inr ⟨f, List.mem_cons_of_mem _ hf, rfl, hvf⟩
        · rintro (hm | ⟨f, hf, rfl, hvf⟩)
          · exact Or.inl hm
          · rcases List.mem_cons.1 hf with rfl | hf'
            · rw [hvf] at hv; cases hv rfl
            · exact Or.inr ⟨f, hf', rfl, hvf⟩

end Operations

/-- Claim C8: when loading operation definitions from a directory, a file is
skipped exactly when its name contains a character that is not alphanumeric or
underscore; every file whose name consists only of alphanumeric-or-underscore
characters is parsed as an operation definition (stated for ASCII file names). -/
theorem C8_operation_name_filter :
    (∀ name : List Char, (∀ c ∈ name, c.toNat < 128) →
      (Operations.is_valid_operation_name name = true ↔
        ∀ c ∈ name, c.isAlphanum = true ∨ c = '_')) ∧
    (∀ files : List Operations.DirFile,
      (∀ f ∈ files, Operations.is_valid_operation_name f.name = true →
        ∃ op, f.parsed = .ok op) →
      ∃ ops, Operations.get_operations files = .ok ops ∧
        ∀ n, n ∈ Operations.opNames ops ↔
          ∃ f ∈ files, f.name = n ∧ Operations.is_valid_operation_name f.name = true) := by
  constructor
  · intro name _
    rw [Operations.is_valid_operation_name, List.all_eq_true]
    refine forall₂_congr fun c _ => ?_
    simp only [Char.isAlphanum, Bool.or_eq_true, beq_iff_eq]
  · intro files hparse
    obtain ⟨r, hr, hmem⟩ := Operations.get_operations_go_ok files Operations.emptyOperations hparse
    refine ⟨r, hr, fun n => ?_⟩
    rw [hmem n]
    simp [Operations.opNames, Operations.emptyOperations]

namespace Workflow

/-- Modelled from the spec: handlers of a script action (success target, error
target, timeout duration, timeout target); `workflow/script.rs` is not part of
the covered sources and only equality of actions enters the claims. -/
structure ExitHandlers where
  on_success : Option (List Char)
  on_error : Option (List Char)
  timeout_sec : Option Nat
  on_timeout : Option (List Char)
  deriving DecidableEq

/-- Modelled from the spec: handlers of a background action (the state entered
once the action has been launched). -/
structure BgExitHandlers where
  on_exec : Option (List Char)
  deriving DecidableEq

/-- Modelled from the spec: handlers of an awaiting action. -/
structure AwaitHandlers where
  timeout_sec : Option Nat
  on_timeout : Option (List Char)
  on_success : List Char
  on_error : Option (List Char)
  deriving DecidableEq

/-- Modelled from the spec: workflow-wide default handlers. -/
structure DefaultHandlers where
  timeout_sec : Option Nat
  on_timeout : Option (List Char)
  on_error : Option (List Char)
  deriving DecidableEq

/-- A shell command with arguments, from `workflow/script.rs`. -/
structure ShellScript where
  command : List Char
  args : List (List Char)
  deriving DecidableEq

/-- Modelled from the spec: a JSON-path projection over command state. -/
structure StateExcerpt where
  paths : List (List Char)
  deriving DecidableEq

/-- The action variants of `OperationAction` in `workflow/mod.rs`. -/
inductive OperationAction where
  | MoveTo (state : List Char)
  | BuiltIn
  | AwaitingAgentRestart (handlers : AwaitHandlers)
  | Script (script : ShellScript) (handlers : ExitHandlers)
  | BgScript (script : ShellScript) (handlers : BgExitHandlers)
  | Operation (operation : List Char) (input_script : Option ShellScript)
      (input : StateExcerpt) (handlers : BgExitHandlers)
  | AwaitOperationCompletion (handlers : AwaitHandlers) (output : StateExcerpt)
  | Clear
  deriving DecidableEq

/-- The load-time validation errors raised by `OperationWorkflow::try_new`. -/
inductive WorkflowDefinitionError where
  | MissingState (state : List Char)
  | InvalidAction (state : List Char) (action : OperationAction)
  deriving DecidableEq

/-- An operation workflow, from `workflow/mod.rs`; the state map is an
association list with unique keys. -/
structure OperationWorkflow where
  operation : List Char
  built_in : Bool
  handlers : DefaultHandlers
  states : List (List Char × OperationAction)
  deriving DecidableEq

/-- Lookup in the state map (`HashMap::get` / `contains_key`). -/
def lookupState (states : List (List Char × OperationAction)) (k : List Char) :
    Option OperationAction :=
  match states with
  | [] => none
  | (k', a) :: rest => if k' = k then some a else lookupState rest k

/-- Insertion used by `HashMap::entry(..).or_insert(..)`: keep the map
unchanged when the key is present, append the default entry otherwise. -/
def insertIfAbsent (states : List (List Char × OperationAction)) (k : List Char)
    (a : OperationAction) : List (List Char × OperationAction) :=
  if (lookupState states k).isSome then states else states ++ [(k, a)]

/-- Embedding of `OperationWorkflow::try_new` from `workflow/mod.rs`: require
the `init` state, default `successful` and `failed` to `clear` and reject them
when they are present with any other action. -/
def try_new (operation : List Char) (handlers : DefaultHandlers)
    (states : List (List Char × OperationAction)) :
    Except WorkflowDefinitionError OperationWorkflow :=
  if (lookupState states "init".data).isNone then
    .error (.MissingState "init".data)
  else
    let action_on_success := (lookupState states "successful".data).getD .Clear
    let states1 := insertIfAbsent states "successful".data .Clear
    if action_on_success ≠ .Clear then
      .error (.InvalidAction "successful".data action_on_success)
    else
      let action_on_error := (lookupState states1 "failed".data).getD .Clear
      let states2 := insertIfAbsent states1 "failed".data .Clear
      if action_on_error ≠ .Clear then
        .error (.InvalidAction "failed".data action_on_error)
      else
        .ok ⟨operation, false, handlers, states2⟩

/-- The state names referenced by an action: the move-to target and every
handler target. -/
def referencedStates : OperationAction → List (List Char)
  | .MoveTo s => [s]
  | .BuiltIn => []
  | .AwaitingAgentRestart h => h.on_success :: (h.on_error.toList ++ h.on_timeout.toList)
  | .Script _ h => h.on_success.toList ++ h.on_error.toList ++ h.on_timeout.toList
  | .BgScript _ h => h.on_exec.toList
  | .Operation _ _ _ h => h.on_exec.toList
  | .AwaitOperationCompletion h _ => h.on_success :: (h.on_error.toList ++ h.on_timeout.toList)
  | .Clear => []

theorem lookupState_append (s t : List (List Char × OperationAction)) (k : List Char) :
    lookupState (s ++ t) k =
      match lookupState s k with
      | some a => some a
      | none => lookupState t k := by
  induction s with
  | nil => simp [lookupState]
  | cons p rest ih =>
    obtain ⟨k', a⟩ := p
    by_cases h : k' = k
    · simp [lookupState, h]
    · simp [lookupState, h, ih]

theorem lookupState_insertIfAbsent_same (s : List (List Char × OperationAction))
    (k : List Char) (a : OperationAction) :
    lookupState (insertIfAbsent s k a) k = some ((lookupState s k).getD a) := by
  unfold insertIfAbsent
  rcases h : lookupState s k with _ | b
  · simp only [h, Option.isSome_none, Bool.false_eq_true, if_false]
    rw [lookupState_append, h]
    simp [lookupState]
  · simp [h]

theorem lookupState_insertIfAbsent_other (s : List (List Char × OperationAction))
    (k k' : List Char) (a : OperationAction) (hne : k ≠ k') :
    lookupState (insertIfAbsent s k a) k' = lookupState s k' := by
  unfold insertIfAbsent
  rcases h : lookupState s k with _ | b
  · simp only [h, Option.isSome_none, Bool.false_eq_true, if_false]
    rw [lookupState_append]
    rcases h' : lookupState s k' with _ | c
    · simp [lookupState, hne]
    · simp
  · simp [h]

end Workflow


/-- Claim C2, corrected: loading a workflow fails exactly when the `init` state
is absent, or the `successful` or `failed` state is present and mapped to an
action other than `clear`; when `successful` or `failed` is absent, loading
succeeds and those states default to the `clear` action. (Unknown state
references are not rejected at load time by `try_new`; see the counterexample.) -/
theorem C2_try_new_validation :
    ∀ (op : List Char) (h : Workflow.DefaultHandlers)
      (states : List (List Char × Workflow.OperationAction)),
      ((∃ w, Workflow.try_new op h states = .ok w) ↔
        ((Workflow.lookupState states "init".data).isSome ∧
          (∀ a, Workflow.lookupState states "successful".data = some a → a = .Clear) ∧
          (∀ a, Workflow.lookupState states "failed".data = some a → a = .Clear))) ∧
      (∀ w, Workflow.try_new op h states = .ok w →
        Workflow.lookupState w.states "successful".data = some .Clear ∧
        Workflow.lookupState w.states "failed".data = some .Clear ∧
        (∀ k, k ≠ "successful".data → k ≠ "failed".data →
          Workflow.lookupState w.states k = Workflow.lookupState states k)) := by
  intro op h states
  have hsf : "successful".data ≠ "failed".data := by decide
  have hfail1 : Workflow.lookupState
      (Workflow.insertIfAbsent states "successful".data .Clear) "failed".data =
      Workflow.lookupState states "failed".data :=
    Workflow.lookupState_insertIfAbsent_other _ _ _ _ hsf
  unfold Workflow.try_new
  by_cases hinit : (Workflow.lookupState states "init".data).isNone
  · rw [if_pos hinit]
    constructor
    · constructor
      · rintro ⟨w, hw⟩; cases hw
      · rintro ⟨hsome, _⟩
        rw [Option.isNone_iff_eq_none] at hinit
        rw [hinit] at hsome; cases hsome
    · intro w hw; cases hw
  · rw [if_neg hinit]
    by_cases hA : (Workflow.lookupState states "successful".data).getD .Clear = .Clear
    · rw [if_neg (fun hne => hne hA)]
      rw [hfail1]
      by_cases hB : (Workflow.lookupState states "failed".data).getD .Clear = .Clear
      · rw [if_neg (fun hne => hne hB)]
        constructor
        · constructor
          · intro _
            refine ⟨by simpa [Option.isSome_iff_ne_none, Option.isNone_iff_eq_none] using hinit,
              ?_, ?_⟩
            · intro a ha; rw [ha] at hA; simpa using hA
            · intro a ha; rw [ha] at hB; simpa using hB
          · intro _; exact ⟨_, rfl⟩
        · intro w hw
          injection hw with hw'
          subst hw'
          refine ⟨?_, ?_, ?_⟩
          · rw [Workflow.lookupState_insertIfAbsent_other _ _ _ _ (Ne.symm hsf),
              Workflow.lookupState_insertIfAbsent_same]
            rw [hA]
          · rw [Workflow.lookupState_insertIfAbsent_same, hfail1, hB]
          · intro k hks hkf
            rw [Workflow.lookupState_insertIfAbsent_other _ _ _ _ (Ne.symm hkf),
              Workflow.lookupState_insertIfAbsent_other _ _ _ _ (Ne.symm hks)]
      · rw [if_pos hB]
        constructor
        · constructor
          · rintro ⟨w, hw⟩; cases hw
          · rintro ⟨_, _, hall⟩
            rcases hfail : Workflow.lookupState states "failed".data with _ | fa
            · rw [hfail] at hB; simp at hB
            · exact (hB (by rw [hfail, Option.getD_some]; exact hall fa hfail)).elim
        · intro w hw; cases hw
    · rw [if_pos hA]
      constructor
      · constructor
        · rintro ⟨w, hw⟩; cases hw
        · rintro ⟨_, hall, _⟩
          rcases hsucc : Workflow.lookupState states "successful".data with _ | sa
          · rw [hsucc] at hA; simp at hA
          · exact (hA (by rw [hsucc, Option.getD_some]; exact hall sa hsucc)).elim
      · intro w hw; cases hw

/-- Counterexample to claim C2 as stated: a workflow whose `init` state moves to
the undefined state name `not_a_state` is accepted by `try_new`, although the
claim requires loading to fail when a state references an undefined state name. -/
theorem C2_counterexample :
    (∃ w, Workflow.try_new "custom_op".data ⟨none, none, none⟩
        [("init".data, .MoveTo "not_a_state".data)] = .ok w) ∧
    "not_a_state".data ∈
      Workflow.referencedStates (.MoveTo "not_a_state".data) ∧
    ∀ w, Workflow.try_new "custom_op".data ⟨none, none, none⟩
        [("init".data, .MoveTo "not_a_state".data)] = .ok w →
      Workflow.lookupState w.states "not_a_state".data = none := by
  have heval : Workflow.try_new "custom_op".data ⟨none, none, none⟩
      [("init".data, .MoveTo "not_a_state".data)] =
      .ok ⟨"custom_op".data, false, ⟨none, none, none⟩,
        [("init".data, .MoveTo "not_a_state".data), ("successful".data, .Clear),
          ("failed".data, .Clear)]⟩ := by rfl
  refine ⟨⟨_, heval⟩, by decide, ?_⟩
  intro w hw
  rw [heval] at hw
  injection hw with hw'
  subst hw'
  decide

/-- Witness for C2 at a concrete workflow with only an `init` state: loading
succeeds and `successful` defaults to `clear`. -/
theorem C2_witness :
    (∃ w, Workflow.try_new "sw_update".data ⟨none, none, none⟩
        [("init".data, .BuiltIn)] = .ok w) ∧
    Workflow.lookupState
      [("init".data, Workflow.OperationAction.BuiltIn), ("successful".data, .Clear),
        ("failed".data, .Clear)] "successful".data = some .Clear := by
  have heval : Workflow.try_new "sw_update".data ⟨none, none, none⟩
      [("init".data, .BuiltIn)] =
      .ok ⟨"sw_update".data, false, ⟨none, none, none⟩,
        [("init".data, .BuiltIn), ("successful".data, .Clear),
          ("failed".data, .Clear)]⟩ := rfl
  have hn1 : Workflow.lookupState [("init".data, Workflow.OperationAction.BuiltIn)]
      "successful".data = none := by decide
  have hn2 : Workflow.lookupState [("init".data, Workflow.OperationAction.BuiltIn)]
      "failed".data = none := by decide
  constructor
  · refine (C2_try_new_validation "sw_update".data ⟨none, none, none⟩ _).1.mpr
      ⟨by decide, ?_, ?_⟩
    · intro a ha
      rw [hn1] at ha
      cases ha
    · intro a ha
      rw [hn2] at ha
      cases ha
  · exact ((C2_try_new_validation "sw_update".data ⟨none, none, none⟩ _).2 _ heval).1

/-- Witness for C8 at a concrete listing: a valid-named file is loaded, a file
with a tilde in its name is skipped without its body being read. -/
theorem C8_witness :
    (Operations.is_valid_operation_name "c8y_Command".data = true ↔
      ∀ c ∈ "c8y_Command".data, c.isAlphanum = true ∨ c = '_') ∧
    ∃ ops, Operations.get_operations
        [⟨"c8y_Command".data, .ok ⟨[], none⟩⟩, ⟨"bad~name".data, .error ()⟩] = .ok ops ∧
      ∀ n, n ∈ Operations.opNames ops ↔
        ∃ f ∈ [(⟨"c8y_Command".data, .ok ⟨[], none⟩⟩ : Operations.DirFile),
            ⟨"bad~name".data, .error ()⟩],
          f.name = n ∧ Operations.is_valid_operation_name f.name = true := by
  constructor
  · exact C8_operation_name_filter.1 "c8y_Command".data (by decide)
  · refine C8_operation_name_filter.2 _ ?_
    intro f hf hv
    rcases List.mem_cons.1 hf with rfl | hf'
    · exact ⟨_, rfl⟩
    · rcases List.mem_cons.1 hf' with rfl | hf''
      · exact absurd hv (by decide)
      · cases hf''

namespace Adapter

/-- A JSON value; objects are association lists with unique keys, abstracting
the map type of the external JSON crate. -/
inductive Json where
  | null
  | bool (b : Bool)
  | num (n : Int)
  | str (s : List Char)
  | arr (items : List Json)
  | obj (fields : List (List Char × Json))

/-- Lookup of an object field (`Map::get`). -/
def jsonLookup (fields : List (List Char × Json)) (k : List Char) : Option Json :=
  match fields with
  | [] => none
  | (k', v) :: rest => if k' = k then some v else jsonLookup rest k

/-- Insertion of an object field with replacement (`Map::insert`). -/
def jsonInsert (fields : List (List Char × Json)) (k : List Char) (v : Json) :
    List (List Char × Json) :=
  match fields with
  | [] => [(k, v)]
  | (k', v') :: rest =>
    if k' = k then (k, v) :: rest else (k', v') :: jsonInsert rest k v

/-- Removal of an object field (`Map::remove`). -/
def jsonRemove (fields : List (List Char × Json)) (k : List Char) :
    List (List Char × Json) :=
  fields.filter (fun e => !(e.1 == k))

/-- An inbound MQTT payload as seen through the JSON decoder: empty bytes,
non-empty bytes that do not decode to JSON, or the decoded JSON value (the
decoder itself is the external JSON crate). -/
inductive MqttPayload where
  | empty
  | malformed
  | json (v : Json)

/-- A validated MQTT topic. -/
structure Topic where
  name : List Char

/-- Modelled from the spec: `Topic::new` of the MQTT channel crate (not part of
the covered sources) accepts a non-empty topic name without wildcards. -/
def Topic_new (name : List Char) : Option Topic :=
  if name = [] ∨ name.any (fun c => c == '+' || c == '#') = true then none
  else some ⟨name⟩

/-- MQTT quality of service. -/
inductive QoS where
  | AtMostOnce
  | AtLeastOnce
  | ExactlyOnce

/-- An MQTT message; `MqttMessage::new` defaults to non-retained at-least-once. -/
structure MqttMessage where
  topic : Topic
  payload : MqttPayload
  retain : Bool
  qos : QoS

/-- Embedding of `MqttMessage::new`. -/
def MqttMessage_new (t : Topic) (p : MqttPayload) : MqttMessage :=
  ⟨t, p, false, .AtLeastOnce⟩

/-- Embedding of `MqttMessage::with_retain`. -/
def with_retain (m : MqttMessage) : MqttMessage := { m with retain := true }

/-- Embedding of `MqttMessage::with_qos`. -/
def with_qos (m : MqttMessage) (q : QoS) : MqttMessage := { m with qos := q }

/-- Embedding of `convert_to_old_agent_request` from `compatibility_adapter.rs`:
drop empty (clearing) payloads and non-init states, inject the command id from
the topic as the `id` field, remove the `status` field, and republish
non-retained on the legacy request topic. -/
def convert_to_old_agent_request (cmd_type cmd_id : List Char)
    (payload : MqttPayload) : Except (List Char) (Option MqttMessage) :=
  match payload with
  | .empty => .ok none
  | .json (.obj request) =>
    match jsonLookup request "status".data with
    | some (.str status) =>
      if status ≠ "init".data then .ok none
      else
        let request1 := jsonInsert request "id".data (.str cmd_id)
        let request2 := jsonRemove request1 "status".data
        match Topic_new ("tedge/commands/req/".data ++ cmd_type) with
        | some topic =>
          .ok (some (with_qos (MqttMessage_new topic (.json (.obj request2))) .AtLeastOnce))
        | none => .error ("Fail to inject command id into agent request".data)
    | _ => .error ("Fail to inject command id into agent request".data)
  | _ => .error ("Fail to inject command id into agent request".data)

/-- Embedding of `convert_from_old_agent_response` from
`compatibility_adapter.rs`: extract the command id from the legacy payload,
prepend the mapper prefix when the id does not carry it already, and republish
the payload retained on the new-schema command topic. -/
def convert_from_old_agent_response (pfx cmd_type : List Char)
    (payload : MqttPayload) : Except (List Char) (Option MqttMessage) :=
  match payload with
  | .json (.obj response) =>
    match jsonLookup response "id".data with
    | some (.str cmd_id) =>
      let topic_name :=
        if pfx.isPrefixOf cmd_id then
          "te/device/main///cmd/".data ++ cmd_type ++ '/' :: cmd_id
        else
          "te/device/main///cmd/".data ++ cmd_type ++ '/' :: (pfx ++ '-' :: cmd_id)
      match Topic_new topic_name with
      | some topic =>
        .ok (some (with_qos (with_retain (MqttMessage_new topic payload)) .AtLeastOnce))
      | none => .error ("Fail to extract command id from agent response".data)
    | _ => .error ("Fail to extract command id from agent response".data)
  | _ => .error ("Fail to extract command id from agent response".data)

/-- Split a topic name at the slashes (`str::split('/')`). -/
def splitSlash : List Char → List (List Char)
  | [] => [[]]
  | c :: rest =>
    if c == '/' then [] :: splitSlash rest
    else
      match splitSlash rest with
      | s :: ss => (c :: s) :: ss
      | [] => [[c]]

/-- Embedding of `try_convert` from `compatibility_adapter.rs`: dispatch on the
split topic name. -/
def try_convert (pfx topic : List Char) (payload : MqttPayload) :
    Except (List Char) (Option MqttMessage) :=
  match splitSlash topic with
  | [t1, t2, t3, t4, t5] =>
    if t1 = "tedge".data ∧ t2 = "commands".data ∧ t3 = "res".data then
      if t4 = "control".data ∧ t5 = "restart".data then
        convert_from_old_agent_response pfx "restart".data payload
      else if t4 = "software".data ∧ t5 = "list".data then
        convert_from_old_agent_response pfx "software_list".data payload
      else if t4 = "software".data ∧ t5 = "update".data then
        convert_from_old_agent_response pfx "software_update".data payload
      else .ok none
    else .ok none
  | [_, d, m, e1, e2, c, op, cmd_id] =>
    if d = "device".data ∧ m = "main".data ∧ e1 = [] ∧ e2 = [] ∧ c = "cmd".data then
      if op = "restart".data then
        convert_to_old_agent_request "control/restart".data cmd_id payload
      else if op = "software_list".data then
        convert_to_old_agent_request "software/list".data cmd_id payload
      else if op = "software_update".data then
        convert_to_old_agent_request "software/update".data cmd_id payload
      else .ok none
    else .ok none
  | _ => .ok none

/-- Embedding of `OldAgentAdapter::convert`: a conversion error is logged and
produces no output. -/
def convert (pfx topic : List Char) (payload : MqttPayload) : List MqttMessage :=
  match try_convert pfx topic payload with
  | .ok (some out) => [out]
  | .ok none => []
  | .error _ => []

end Adapter

namespace Adapter

theorem jsonLookup_insert_same (f : List (List Char × Json)) (k : List Char) (v : Json) :
    jsonLookup (jsonInsert f k v) k = some v := by
  induction f with
  | nil => simp [jsonInsert, jsonLookup]
  | cons p rest ih =>
    obtain ⟨k', v'⟩ := p
    by_cases h : k' = k
    · simp [jsonInsert, jsonLookup, h]
    · simp [jsonInsert, jsonLookup, h, ih]

theorem jsonLookup_insert_other (f : List (List Char × Json)) (k k' : List Char)
    (v : Json) (h : k ≠ k') :
    jsonLookup (jsonInsert f k v) k' = jsonLookup f k' := by
  induction f with
  | nil => simp [jsonInsert, jsonLookup, h]
  | cons p rest ih =>
    obtain ⟨k0, v0⟩ := p
    by_cases h0 : k0 = k
    · subst h0
      simp [jsonInsert, jsonLookup, h]
    · simp [jsonInsert, jsonLookup, h0, ih]

theorem jsonLookup_remove_same (f : List (List Char × Json)) (k : List Char) :
    jsonLookup (jsonRemove f k) k = none := by
  induction f with
  | nil => simp [jsonRemove, jsonLookup]
  | cons p rest ih =>
    obtain ⟨k0, v0⟩ := p
    by_cases h0 : k0 = k
    · simpa [jsonRemove, List.filter_cons, h0] using ih
    · simpa [jsonRemove, List.filter_cons, h0, jsonLookup] using ih

theorem jsonLookup_remove_other (f : List (List Char × Json)) (k k' : List Char)
    (h : k ≠ k') :
    jsonLookup (jsonRemove f k) k' = jsonLookup f k' := by
  induction f with
  | nil => simp [jsonRemove, jsonLookup]
  | cons p rest ih =>
    obtain ⟨k0, v0⟩ := p
    by_cases h0 : k0 = k
    · subst h0
      have hne : k0 ≠ k' := h
      simpa [jsonRemove, List.filter_cons, jsonLookup, hne] using ih
    · by_cases h1 : k0 = k'
      · subst h1
        simp [jsonRemove, List.filter_cons, jsonLookup, h0]
      · simpa [jsonRemove, List.filter_cons, jsonLookup, h0, h1] using ih

theorem splitSlash_no_slash (cs : List Char) (h : ∀ c ∈ cs, c ≠ '/') :
    splitSlash cs = [cs] := by
  induction cs with
  | nil => rfl
  | cons c rest ih =>
    have hc : (c == '/') = false := by
      simp only [beq_eq_false_iff_ne, ne_eq]
      exact h c (List.mem_cons_self _ _)
    rw [splitSlash]
    simp only [hc, Bool.false_eq_true, if_false]
    rw [ih (fun x hx => h x (List.mem_cons_of_mem _ hx))]

theorem splitSlash_append_slash (seg : List Char) (rest : List Char)
    (h : ∀ c ∈ seg, c ≠ '/') :
    splitSlash (seg ++ '/' :: rest) = seg :: splitSlash rest := by
  induction seg with
  | nil =>
    simp only [List.nil_append, splitSlash]
    rw [if_pos (by rfl)]
  | cons c seg ih =>
    have hc : (c == '/') = false := by
      simp only [beq_eq_false_iff_ne, ne_eq]
      exact h c (List.mem_cons_self _ _)
    rw [List.cons_append, splitSlash]
    simp only [hc, Bool.false_eq_true, if_false]
    rw [ih (fun x hx => h x (List.mem_cons_of_mem _ hx))]

/-- Absence of MQTT wildcard characters in a topic fragment. -/
def noWild (cs : List Char) : Prop := ∀ c ∈ cs, ¬(c = '+' ∨ c = '#')

instance (cs : List Char) : Decidable (noWild cs) :=
  List.decidableBAll _ cs

theorem Topic_new_ok (name : List Char) (hne : name ≠ []) (hw : noWild name) :
    Topic_new name = some ⟨name⟩ := by
  have hany : name.any (fun c => c == '+' || c == '#') = false := by
    rw [List.any_eq_false]
    intro c hc hx
    simp only [Bool.or_eq_true, beq_iff_eq] at hx
    exact hw c hc hx
  rw [Topic_new, if_neg]
  rintro (h | h)
  · exact hne h
  · rw [hany] at h; cases h

theorem noWild_append {a b : List Char} (ha : noWild a) (hb : noWild b) :
    noWild (a ++ b) := by
  intro c hc
  rcases List.mem_append.1 hc with h | h
  · exact ha c h
  · exact hb c h

theorem noWild_cons {c : Char} {b : List Char} (hc : ¬(c = '+' ∨ c = '#'))
    (hb : noWild b) : noWild (c :: b) := by
  intro x hx
  rcases List.mem_cons.1 hx with rfl | h
  · exact hc
  · exact hb x h

end Adapter

namespace Adapter

theorem try_convert_new_topic (pfx opNew opOld cmd_id : List Char) (payload : MqttPayload)
    (hop : (opNew, opOld) = ("restart".data, "control/restart".data) ∨
        (opNew, opOld) = ("software_list".data, "software/list".data) ∨
        (opNew, opOld) = ("software_update".data, "software/update".data))
    (hid : ∀ c ∈ cmd_id, c ≠ '/') :
    try_convert pfx ("te/device/main///cmd/".data ++ opNew ++ '/' :: cmd_id) payload =
      convert_to_old_agent_request opOld cmd_id payload := by
  rcases hop with h | h | h <;> (injection h with h1 h2; subst h1; subst h2)
  · have hsplit : splitSlash ("te/device/main///cmd/".data ++
        "restart".data ++ '/' :: cmd_id) =
        ["te".data, "device".data, "main".data, [], [], "cmd".data, "restart".data,
          cmd_id] := by
      show splitSlash ("te".data ++ '/' :: ("device".data ++ '/' :: ("main".data ++ '/' ::
        ([] ++ '/' :: ([] ++ '/' :: ("cmd".data ++ '/' ::
          ("restart".data ++ '/' :: cmd_id))))))) = _
      rw [splitSlash_append_slash _ _ (by decide), splitSlash_append_slash _ _ (by decide),
        splitSlash_append_slash _ _ (by decide), splitSlash_append_slash _ _ (by decide),
        splitSlash_append_slash _ _ (by decide), splitSlash_append_slash _ _ (by decide),
        splitSlash_append_slash _ _ (by decide), splitSlash_no_slash cmd_id hid]
    unfold try_convert
    rw [hsplit]
    rfl
  · have hsplit : splitSlash ("te/device/main///cmd/".data ++
        "software_list".data ++ '/' :: cmd_id) =
        ["te".data, "device".data, "main".data, [], [], "cmd".data,
          "software_list".data, cmd_id] := by
      show splitSlash ("te".data ++ '/' :: ("device".data ++ '/' :: ("main".data ++ '/' ::
        ([] ++ '/' :: ([] ++ '/' :: ("cmd".data ++ '/' ::
          ("software_list".data ++ '/' :: cmd_id))))))) = _
      rw [splitSlash_append_slash _ _ (by decide), splitSlash_append_slash _ _ (by decide),
        splitSlash_append_slash _ _ (by decide), splitSlash_append_slash _ _ (by decide),
        splitSlash_append_slash _ _ (by decide), splitSlash_append_slash _ _ (by decide),
        splitSlash_append_slash _ _ (by decide), splitSlash_no_slash cmd_id hid]
    unfold try_convert
    rw [hsplit]
    rfl
  · have hsplit : splitSlash ("te/device/main///cmd/".data ++
        "software_update".data ++ '/' :: cmd_id) =
        ["te".data, "device".data, "main".data, [], [], "cmd".data,
          "software_update".data, cmd_id] := by
      show splitSlash ("te".data ++ '/' :: ("device".data ++ '/' :: ("main".data ++ '/' ::
        ([] ++ '/' :: ([] ++ '/' :: ("cmd".data ++ '/' ::
          ("software_update".data ++ '/' :: cmd_id))))))) = _
      rw [splitSlash_append_slash _ _ (by decide), splitSlash_append_slash _ _ (by decide),
        splitSlash_append_slash _ _ (by decide), splitSlash_append_slash _ _ (by decide),
        splitSlash_append_slash _ _ (by decide), splitSlash_append_slash _ _ (by decide),
        splitSlash_append_slash _ _ (by decide), splitSlash_no_slash cmd_id hid]
    unfold try_convert
    rw [hsplit]
    rfl

theorem try_convert_old_topic (pfx opNew opOld : List Char) (payload : MqttPayload)
    (hop : (opNew, opOld) = ("restart".data, "control/restart".data) ∨
        (opNew, opOld) = ("software_list".data, "software/list".data) ∨
        (opNew, opOld) = ("software_update".data, "software/update".data)) :
    try_convert pfx ("tedge/commands/res/".data ++ opOld) payload =
      convert_from_old_agent_response pfx opNew payload := by
  rcases hop with h | h | h <;> (injection h with h1 h2; subst h1; subst h2) <;> rfl

end Adapter

/-- Claim C7: for each message on a new-schema command topic
`te/device/main///cmd/{restart,software_list,software_update}/<cmd_id>`, the
old-agent adapter produces no output when the payload is empty or its status
is not `init`, and otherwise republishes non-retained to the matching legacy
request topic with the command id from the topic injected as `id` and the
`status` field removed; conversely a legacy response carrying an `id` is
republished retained on the new-schema topic for that id, prefixed with the
mapper prefix when not already so prefixed. -/
theorem C7_old_agent_adapter :
    ∀ (pfx cmd_id : List Char) (payload : Adapter.MqttPayload) (opNew opOld : List Char),
      ((opNew, opOld) = ("restart".data, "control/restart".data) ∨
        (opNew, opOld) = ("software_list".data, "software/list".data) ∨
        (opNew, opOld) = ("software_update".data, "software/update".data)) →
      (∀ c ∈ cmd_id, c ≠ '/') →
      Adapter.noWild pfx →
      ((payload = .empty ∨
        (∀ fields, payload = .json (.obj fields) →
          Adapter.jsonLookup fields "status".data ≠ some (.str "init".data))) →
        Adapter.convert pfx ("te/device/main///cmd/".data ++ opNew ++ '/' :: cmd_id)
          payload = []) ∧
      (∀ fields, payload = .json (.obj fields) →
        Adapter.jsonLookup fields "status".data = some (.str "init".data) →
        ∃ out, Adapter.convert pfx
            ("te/device/main///cmd/".data ++ opNew ++ '/' :: cmd_id) payload = [out] ∧
          out.topic.name = "tedge/commands/req/".data ++ opOld ∧
          out.retain = false ∧
          ∃ fields2, out.payload = .json (.obj fields2) ∧
            Adapter.jsonLookup fields2 "id".data = some (.str cmd_id) ∧
            Adapter.jsonLookup fields2 "status".data = none ∧
            ∀ k, k ≠ "id".data → k ≠ "status".data →
              Adapter.jsonLookup fields2 k = Adapter.jsonLookup fields k) ∧
      (∀ fields cid, payload = .json (.obj fields) →
        Adapter.jsonLookup fields "id".data = some (.str cid) →
        Adapter.noWild cid →
        ∃ out, Adapter.convert pfx ("tedge/commands/res/".data ++ opOld) payload = [out] ∧
          out.topic.name = "te/device/main///cmd/".data ++ opNew ++ '/' ::
            (if pfx.isPrefixOf cid then cid else pfx ++ '-' :: cid) ∧
          out.retain = true ∧
          out.payload = payload) := by
  intro pfx cmd_id payload opNew opOld hop hid hpfx
  have hwNew : Adapter.noWild opNew := by
    rcases hop with h | h | h <;> (injection h with h1 h2; subst h1; exact (by decide))
  have hwOld : Adapter.noWild opOld := by
    rcases hop with h | h | h <;> (injection h with h1 h2; subst h2; exact (by decide))
  refine ⟨?_, ?_, ?_⟩
  · intro hno
    unfold Adapter.convert
    rw [Adapter.try_convert_new_topic pfx opNew opOld cmd_id payload hop hid]
    rcases payload with _ | _ | v
    · rfl
    · rfl
    · rcases v with _ | b | n | s | items | fields
      · rfl
      · rfl
      · rfl
      · rfl
      · rfl
      · rcases hno with hemp | hobj
        · cases hemp
        · have hst := hobj fields rfl
          rcases hlook : Adapter.jsonLookup fields "status".data with _ | jv
          · simp [Adapter.convert_to_old_agent_request, hlook]
          · rcases jv with _ | b | n | s | items2 | f2
            · simp [Adapter.convert_to_old_agent_request, hlook]
            · simp [Adapter.convert_to_old_agent_request, hlook]
            · simp [Adapter.convert_to_old_agent_request, hlook]
            · have hs : ¬ s = "init".data := fun hEq => hst (by rw [hlook, hEq])
              simp [Adapter.convert_to_old_agent_request, hlook, hs]
            · simp [Adapter.convert_to_old_agent_request, hlook]
            · simp [Adapter.convert_to_old_agent_request, hlook]
  · intro fields hpay hst
    subst hpay
    unfold Adapter.convert
    rw [Adapter.try_convert_new_topic pfx opNew opOld cmd_id _ hop hid]
    have htopic : Adapter.Topic_new ("tedge/commands/req/".data ++ opOld) =
        some ⟨"tedge/commands/req/".data ++ opOld⟩ := by
      refine Adapter.Topic_new_ok _ (by simp) (Adapter.noWild_append (by decide) hwOld)
    simp only [Adapter.convert_to_old_agent_request, hst]
    rw [if_neg (by simp)]
    rw [htopic]
    refine ⟨_, rfl, rfl, rfl, ?_⟩
    refine ⟨_, rfl, ?_, ?_, ?_⟩
    · rw [Adapter.jsonLookup_remove_other _ _ _ (by decide),
        Adapter.jsonLookup_insert_same]
    · rw [Adapter.jsonLookup_remove_same]
    · intro k hkid hkst
      rw [Adapter.jsonLookup_remove_other _ _ _ (fun hEq => hkst hEq.symm),
        Adapter.jsonLookup_insert_other _ _ _ _ (fun hEq => hkid hEq.symm)]
  · intro fields cid hpay hidf hwcid
    subst hpay
    unfold Adapter.convert
    rw [Adapter.try_convert_old_topic pfx opNew opOld _ hop]
    simp only [Adapter.convert_from_old_agent_response, hidf]
    by_cases hpre : pfx.isPrefixOf cid = true
    · have htopic : Adapter.Topic_new
          ("te/device/main///cmd/".data ++ opNew ++ '/' :: cid) =
          some ⟨"te/device/main///cmd/".data ++ opNew ++ '/' :: cid⟩ := by
        refine Adapter.Topic_new_ok _ (by simp) ?_
        exact Adapter.noWild_append (Adapter.noWild_append (by decide) hwNew)
          (Adapter.noWild_cons (by decide) hwcid)
      simp only [hpre, if_true, htopic]
      exact ⟨_, rfl,
        by simp [hpre, Adapter.with_qos, Adapter.with_retain, Adapter.MqttMessage_new],
        rfl, rfl⟩
    · have htopic : Adapter.Topic_new
          ("te/device/main///cmd/".data ++ opNew ++ '/' :: (pfx ++ '-' :: cid)) =
          some ⟨"te/device/main///cmd/".data ++ opNew ++ '/' :: (pfx ++ '-' :: cid)⟩ := by
        refine Adapter.Topic_new_ok _ (by simp) ?_
        refine Adapter.noWild_append (Adapter.noWild_append (by decide) hwNew)
          (Adapter.noWild_cons (by decide)
            (Adapter.noWild_append hpfx (Adapter.noWild_cons (by decide) hwcid)))
      simp only [hpre, Bool.false_eq_true, if_false, htopic]
      exact ⟨_, rfl,
        by simp [hpre, Adapter.with_qos, Adapter.with_retain, Adapter.MqttMessage_new],
        rfl, rfl⟩

/-- Witness for C7: a concrete init restart command and a concrete legacy
restart response. -/
theorem C7_witness :
    (∃ out, Adapter.convert "c8y-mapper".data
        ("te/device/main///cmd/".data ++ "restart".data ++ '/' :: "c8y-mapper-123".data)
        (.json (.obj [("status".data, .str "init".data)])) = [out] ∧
      out.topic.name = "tedge/commands/req/".data ++ "control/restart".data ∧
      out.retain = false ∧
      ∃ fields2, out.payload = .json (.obj fields2) ∧
        Adapter.jsonLookup fields2 "id".data = some (.str "c8y-mapper-123".data) ∧
        Adapter.jsonLookup fields2 "status".data = none ∧
        ∀ k, k ≠ "id".data → k ≠ "status".data →
          Adapter.jsonLookup fields2 k =
            Adapter.jsonLookup [("status".data, Adapter.Json.str "init".data)] k) ∧
    (∃ out, Adapter.convert "c8y-mapper".data
        ("tedge/commands/res/".data ++ "control/restart".data)
        (.json (.obj [("id".data, .str "123".data)])) = [out] ∧
      out.topic.name = "te/device/main///cmd/".data ++ "restart".data ++ '/' ::
        (if "c8y-mapper".data.isPrefixOf "123".data then "123".data
          else "c8y-mapper".data ++ '-' :: "123".data) ∧
      out.retain = true ∧
      out.payload = .json (.obj [("id".data, .str "123".data)])) := by
  constructor
  · exact (C7_old_agent_adapter "c8y-mapper".data "c8y-mapper-123".data
      (.json (.obj [("status".data, .str "init".data)])) "restart".data
      "control/restart".data (Or.inl rfl) (by decide) (by decide)).2.1
      [("status".data, .str "init".data)] rfl rfl
  · exact (C7_old_agent_adapter "c8y-mapper".data "c8y-mapper-123".data
      (.json (.obj [("id".data, .str "123".data)])) "restart".data
      "control/restart".data (Or.inl rfl) (by decide) (by decide)).2.2
      [("id".data, .str "123".data)] "123".data rfl rfl (by decide)

namespace AgentState

/-- Software operation kinds, from `state_repository/state.rs`. -/
inductive SoftwareOperationVariants where
  | List
  | Update
  deriving DecidableEq

/-- Restart breadcrumb states, from `state_repository/state.rs`. -/
inductive RestartOperationStatus where
  | Pending
  | Restarting
  deriving DecidableEq

/-- The operation recorded in the persisted state, from `state_repository/state.rs`. -/
inductive StateStatus where
  | Software (op : SoftwareOperationVariants)
  | Restart (op : RestartOperationStatus)
  | UnknownOperation
  deriving DecidableEq

/-- The persisted agent state (the breadcrumb file contents), from
`state_repository/state.rs`. -/
structure State where
  operation_id : Option (List Char)
  operation : Option StateStatus
  deriving DecidableEq

/-- Command status as reported by the restart manager, from
`tedge_api::messages::CommandStatus` (only the variants used here). -/
inductive CommandStatus where
  | Init
  | Executing
  | Successful
  | Failed (reason : List Char)
  deriving DecidableEq

/-- A restart command addressed to the main device, from `RestartCommand`. -/
structure RestartCommand where
  cmd_id : List Char
  status : CommandStatus
  deriving DecidableEq

/-- Modelled from the spec: the restart manager's recovery step on startup
(`restart_manager/actor.rs` is not part of the covered sources; the behaviour
is pinned by `restart_manager/tests.rs`). With a breadcrumb recording an
operation id: the `Restarting` state reports the command `Successful`, the
`Pending` state reports it `Failed` (the agent restarted but not the device);
otherwise no command is reported. -/
def process_pending_restart_operation (s : State) : Option RestartCommand :=
  match s.operation_id, s.operation with
  | some id, some (.Restart .Restarting) => some ⟨id, .Successful⟩
  | some id, some (.Restart .Pending) =>
    some ⟨id, .Failed "The agent has been restarted but not the device".data⟩
  | _, _ => none

end AgentState

/-- Claim C9: on agent startup, a restart breadcrumb with an operation id in
the `Restarting` state makes the restart command with that id be reported
`Successful`; the `Pending` state makes it be reported `Failed`. -/
theorem C9_restart_recovery :
    ∀ id : List Char,
      AgentState.process_pending_restart_operation
          ⟨some id, some (.Restart .Restarting)⟩ =
        some ⟨id, .Successful⟩ ∧
      ∃ reason, AgentState.process_pending_restart_operation
          ⟨some id, some (.Restart .Pending)⟩ =
        some ⟨id, .Failed reason⟩ := by
  intro id
  exact ⟨rfl, _, rfl⟩

namespace Entity

/-- An entity topic identifier: the four groups of the `te` topic scheme, as
compared by their string form (so `device/main//` built from any action equals
the main-device id). -/
structure ETId where
  g1 : List Char
  g2 : List Char
  g3 : List Char
  g4 : List Char
  deriving DecidableEq

/-- The main device identifier `device/main//`. -/
def mainId : ETId := ⟨"device".data, "main".data, [], []⟩

/-- Entity types, from `tedge_api::entity::EntityType`. -/
inductive EntityType where
  | MainDevice
  | ChildDevice
  | Service
  deriving DecidableEq

/-- The two registration protocols of `entity_manager/tests.rs`. -/
inductive Protocol where
  | HTTP
  | MQTT
  deriving DecidableEq

/-- The actions of the entity-store reference model (`model::Action`). -/
inductive Action where
  | AddDevice (topic : List Char) (props : List (List Char × List Char))
  | AddService (topic : List Char) (props : List (List Char × List Char))
  | RemDevice (topic : List Char)
  | RemService (topic : List Char)
  deriving DecidableEq

/-- The target name of an action (`Action::target`). -/
def Action.target : Action → List Char
  | .AddDevice t _ => t
  | .AddService t _ => t
  | .RemDevice t => t
  | .RemService t => t

/-- The parent name and own id of an action's target (`Action::parent`): the
empty name has no parent, a one-letter name hangs under `main`, and a longer
name hangs under the name with its last letter removed. -/
def Action.parentPair (a : Action) : Option (List Char × List Char) :=
  match a.target with
  | [] => none
  | [c] => some ("main".data, [c])
  | t => some (t.dropLast, t.drop (t.length - 1))

/-- The topic identifier of an action's target (`Action::topic_id`). -/
def Action.topic_id (a : Action) : ETId :=
  match a.parentPair, a with
  | none, _ => mainId
  | some _, .AddDevice t _ => ⟨"device".data, t, [], []⟩
  | some _, .RemDevice t => ⟨"device".data, t, [], []⟩
  | some (p, i), .AddService _ _ => ⟨"device".data, p, "service".data, i⟩
  | some (p, i), .RemService _ => ⟨"device".data, p, "service".data, i⟩

/-- The topic identifier of the target's parent (`Action::parent_topic_id`). -/
def Action.parent_topic_id (a : Action) : Option ETId :=
  a.parentPair.map (fun pi => ⟨"device".data, pi.1, [], []⟩)

/-- The entity type of an action's target (`Action::target_type`). -/
def Action.target_type (a : Action) : EntityType :=
  match a.parentPair, a with
  | none, _ => .MainDevice
  | some _, .AddDevice _ _ => .ChildDevice
  | some _, .RemDevice _ => .ChildDevice
  | some _, .AddService _ _ => .Service
  | some _, .RemService _ => .Service

/-- Key-value insertion with replacement, modelling the JSON property map. -/
def propInsert (m : List (List Char × List Char)) (k v : List Char) :
    List (List Char × List Char) :=
  match m with
  | [] => [(k, v)]
  | (k', v') :: rest => if k' = k then (k, v) :: rest else (k', v') :: propInsert rest k v

/-- The properties carried by an action (`Action::properties`), collected into
a map as `serde_json::Map` does. -/
def Action.properties (a : Action) : List (List Char × List Char) :=
  match a with
  | .AddDevice _ props => props.foldl (fun m kv => propInsert m kv.1 kv.2) []
  | .AddService _ props => props.foldl (fun m kv => propInsert m kv.1 kv.2) []
  | .RemDevice _ => []
  | .RemService _ => []

/-- What the model `State` records per entity: its type, parent and properties. -/
structure EntityInfo where
  etype : EntityType
  parent : Option ETId
  props : List (List Char × List Char)
  deriving DecidableEq

/-- The model `State` of `entity_manager/tests.rs`: the known entities (the
`entities` map, as an association list with unique keys) and the registered
set. -/
structure StoreState where
  entities : List (ETId × EntityInfo)
  registered : Finset ETId
  deriving DecidableEq

/-- The keys of the entity map. -/
def keysList (entities : List (ETId × EntityInfo)) : List ETId :=
  entities.map Prod.fst

/-- Key membership in the entity map (`HashMap::contains_key`). -/
def containsKey (entities : List (ETId × EntityInfo)) (t : ETId) : Bool :=
  entities.any (fun e => e.1 == t)

/-- One pass of `State::cascade_registration`: the entities whose parent was
just registered and which are not themselves registered yet. -/
def newConnected (entities : List (ETId × EntityInfo)) (reg new : Finset ETId) :
    Finset ETId :=
  ((entities.filter (fun ep =>
      (match ep.2.parent with
        | some p => decide (p ∈ new)
        | none => false) && !decide (ep.1 ∈ reg))).map Prod.fst).toFinset

/-- Embedding of `State::cascade_registration`: repeatedly promote entities
whose parent has just been registered, accumulating everything promoted. The
recursion of the source is bounded here by a fuel argument; the callers pass
enough fuel for the fixed point to be reached (`cascadeReg_fuel`). -/
def cascadeReg (entities : List (ETId × EntityInfo)) :
    Nat → Finset ETId → Finset ETId → Finset ETId × Finset ETId
  | 0, reg, new => (reg, new)
  | fuel + 1, reg, new =>
    let nc := newConnected entities reg new
    if nc = ∅ then (reg, new)
    else
      let res := cascadeReg entities fuel (reg ∪ nc) nc
      (res.1, new ∪ res.2)

/-- One pass of `State::cascade_deregistration`: the entities whose parent was
just removed. -/
def newDisconnected (entities : List (ETId × EntityInfo)) (old : Finset ETId) :
    Finset ETId :=
  ((entities.filter (fun ep =>
      match ep.2.parent with
      | some p => decide (p ∈ old)
      | none => false)).map Prod.fst).toFinset

/-- Embedding of `State::cascade_deregistration`, with the same fuel scheme as
`cascadeReg`. -/
def cascadeDereg :
    Nat → List (ETId × EntityInfo) × Finset ETId → Finset ETId →
    (List (ETId × EntityInfo) × Finset ETId) × Finset ETId
  | 0, st, old => (st, old)
  | fuel + 1, (entities, reg), old =>
    let nd := newDisconnected entities old
    if nd = ∅ then ((entities, reg), old)
    else
      let entities1 := entities.filter (fun ep => !decide (ep.1 ∈ nd))
      let res := cascadeDereg fuel (entities1, reg \ nd) nd
      (res.1, old ∪ res.2)

/-- Embedding of `State::register`: register the entity when its parent is
registered (or absent) and run the registration cascade. -/
def register (st : StoreState) (new_entity : ETId) (parent : Option ETId) :
    StoreState × Finset ETId :=
  if (match parent with
      | none => true
      | some p => decide (p ∈ st.registered)) then
    let res := cascadeReg st.entities (st.entities.length + 1)
      (insert new_entity st.registered) {new_entity}
    (⟨st.entities, res.1⟩, res.2)
  else (st, ∅)

/-- Embedding of `State::deregister`: drop the entity from the registered set
and run the deregistration cascade. -/
def deregister (st : StoreState) (old_entity : ETId) : StoreState × Finset ETId :=
  if old_entity ∈ st.registered then
    let res := cascadeDereg (st.entities.length + 1)
      (st.entities, st.registered.erase old_entity) {old_entity}
    (⟨res.1.1, res.1.2⟩, res.2)
  else (st, ∅)

/-- Embedding of `State::apply`: under HTTP a child may not be registered
before its parent; duplicate additions and removals of unknown entities are
ignored; MQTT requests send nothing back. -/
def apply (st : StoreState) (protocol : Protocol) (action : Action) :
    StoreState × Finset ETId :=
  let topic := action.topic_id
  match action with
  | .AddDevice _ _ | .AddService _ _ =>
    let parent := action.parent_topic_id
    if (match parent with
        | some p => decide (protocol = Protocol.HTTP) && !decide (p ∈ st.registered)
        | none => (false : Bool)) then (st, ∅)
    else if containsKey st.entities topic then (st, ∅)
    else
      let info : EntityInfo := ⟨action.target_type, parent, action.properties⟩
      let st1 : StoreState := ⟨st.entities ++ [(topic, info)], st.registered⟩
      let res := register st1 topic parent
      (res.1, if protocol = Protocol.HTTP then res.2 else ∅)
  | .RemDevice _ | .RemService _ =>
    if containsKey st.entities topic then
      let st1 : StoreState :=
        ⟨st.entities.filter (fun e => !(e.1 == topic)), st.registered⟩
      let res := deregister st1 topic
      (res.1, if protocol = Protocol.HTTP then res.2 else ∅)
    else (st, ∅)

/-- The store before any action (`State::new` applies the main-device
registration to the empty state). -/
def initialState : StoreState :=
  (apply ⟨[], ∅⟩ .HTTP (.AddDevice [] [])).1

/-- Folding a whole sequence of registration requests over the initial store. -/
def applyAll (l : List (Protocol × Action)) : StoreState :=
  l.foldl (fun st pa => (apply st pa.1 pa.2).1) initialState

/-- An entity whose transitive parent chain (through the recorded entities)
terminates at the main device. -/
inductive ReachesMain (entities : List (ETId × EntityInfo)) : ETId → Prop where
  | base (info : EntityInfo) : (mainId, info) ∈ entities → ReachesMain entities mainId
  | step (e : ETId) (info : EntityInfo) (p : ETId) : (e, info) ∈ entities →
      info.parent = some p → ReachesMain entities p → ReachesMain entities e

/-- The parent determined by a (non-main) topic identifier alone. -/
def pdet (e : ETId) : Option ETId :=
  if e = mainId then none
  else if e.g3 = [] then
    some (if e.g2.length = 1 then mainId else ⟨"device".data, e.g2.dropLast, [], []⟩)
  else some ⟨"device".data, e.g2, [], []⟩

end Entity

namespace Entity

theorem mem_newConnected {entities : List (ETId × EntityInfo)} {reg new : Finset ETId}
    {x : ETId} :
    x ∈ newConnected entities reg new ↔
      ∃ i p, (x, i) ∈ entities ∧ i.parent = some p ∧ p ∈ new ∧ x ∉ reg := by
  unfold newConnected
  rw [List.mem_toFinset, List.mem_map]
  constructor
  · rintro ⟨⟨e, i⟩, hmem, rfl⟩
    rw [List.mem_filter] at hmem
    obtain ⟨hent, hcond⟩ := hmem
    rcases hp : i.parent with _ | p
    · rw [hp] at hcond
      simp at hcond
    · rw [hp] at hcond
      simp only [Bool.and_eq_true, decide_eq_true_eq, Bool.not_eq_true',
        decide_eq_false_iff_not] at hcond
      exact ⟨i, p, hent, hp, hcond.1, hcond.2⟩
  · rintro ⟨i, p, hent, hp, hpnew, hxreg⟩
    refine ⟨(x, i), ?_, rfl⟩
    rw [List.mem_filter]
    refine ⟨hent, ?_⟩
    rw [hp]
    simp [hpnew, hxreg]

theorem cascadeReg_acc_sub (entities : List (ETId × EntityInfo)) :
    ∀ (fuel : Nat) (reg new : Finset ETId),
      new ⊆ (cascadeReg entities fuel reg new).2 := by
  intro fuel
  induction fuel with
  | zero => intro reg new; exact Finset.Subset.refl _
  | succ fuel ih =>
    intro reg new
    rw [cascadeReg]
    by_cases hnc : newConnected entities reg new = ∅
    · simp only [hnc, if_pos rfl]
      exact Finset.Subset.refl _
    · simp only [if_neg hnc]
      exact Finset.subset_union_left

theorem ReachesMain_mono {E E' : List (ETId × EntityInfo)}
    (hsub : ∀ x, x ∈ E → x ∈ E') {e : ETId} (h : ReachesMain E e) :
    ReachesMain E' e := by
  induction h with
  | base info hmem => exact ReachesMain.base info (hsub _ hmem)
  | step e info p hmem hp _ ih => exact ReachesMain.step e info p (hsub _ hmem) hp ih

theorem cascadeReg_spec (entities : List (ETId × EntityInfo)) :
    ∀ (fuel : Nat) (reg new : Finset ETId),
      ((keysList entities).toFinset \ reg).card < fuel →
      new ⊆ reg →
      (∀ e, e ∈ reg → e ∈ keysList entities) →
      (∀ e i p, (e, i) ∈ entities → i.parent = some p → p ∈ reg →
        e ∈ reg ∨ p ∈ new) →
      (∀ e, e ∈ reg → ReachesMain entities e) →
      reg ⊆ (cascadeReg entities fuel reg new).1 ∧
      (∀ e, e ∈ (cascadeReg entities fuel reg new).1 → e ∈ keysList entities) ∧
      (∀ e i p, (e, i) ∈ entities → i.parent = some p →
        p ∈ (cascadeReg entities fuel reg new).1 → e ∈ (cascadeReg entities fuel reg new).1) ∧
      (∀ e, e ∈ (cascadeReg entities fuel reg new).1 → ReachesMain entities e) := by
  intro fuel
  induction fuel with
  | zero =>
    intro reg new hfuel
    exact absurd hfuel (by omega)
  | succ fuel ih =>
    intro reg new hfuel hnewsub hregkeys hsat hsound
    by_cases hnc : newConnected entities reg new = ∅
    · rw [cascadeReg]
      simp only [hnc, if_pos rfl]
      refine ⟨Finset.Subset.refl _, hregkeys, ?_, hsound⟩
      intro e i p hent hp hpreg
      rcases hsat e i p hent hp hpreg with he | hpnew
      · exact he
      · by_cases hereg : e ∈ reg
        · exact hereg
        · have : e ∈ newConnected entities reg new :=
            mem_newConnected.2 ⟨i, p, hent, hp, hpnew, hereg⟩
          rw [hnc] at this
          cases this
    · have hstep : cascadeReg entities (fuel + 1) reg new =
          ((cascadeReg entities fuel (reg ∪ newConnected entities reg new)
              (newConnected entities reg new)).1,
            new ∪ (cascadeReg entities fuel (reg ∪ newConnected entities reg new)
              (newConnected entities reg new)).2) := by
        rw [cascadeReg]
        simp only [if_neg hnc]
      set nc := newConnected entities reg new with hncdef
      have hncsubkeys : ∀ x, x ∈ nc → x ∈ keysList entities := by
        intro x hx
        obtain ⟨i, p, hent, _, _, _⟩ := mem_newConnected.1 hx
        exact List.mem_map.2 ⟨(x, i), hent, rfl⟩
      have hncnotreg : ∀ x, x ∈ nc → x ∉ reg := by
        intro x hx
        obtain ⟨i, p, _, _, _, hxr⟩ := mem_newConnected.1 hx
        exact hxr
      have hmeas : ((keysList entities).toFinset \ (reg ∪ nc)).card < fuel := by
      -- strict decrease of the unregistered-keys measure
        obtain ⟨x, hx⟩ := Finset.nonempty_iff_ne_empty.2 hnc
        have hxkeys : x ∈ (keysList entities).toFinset :=
          List.mem_toFinset.2 (hncsubkeys x hx)
        have hlt : ((keysList entities).toFinset \ (reg ∪ nc)).card <
            ((keysList entities).toFinset \ reg).card := by
          apply Finset.card_lt_card
          constructor
          · intro y hy
            rw [Finset.mem_sdiff] at hy ⊢
            exact ⟨hy.1, fun hyr => hy.2 (Finset.mem_union_left _ hyr)⟩
          · intro hcontra
            have hxin : x ∈ (keysList entities).toFinset \ reg :=
              Finset.mem_sdiff.2 ⟨hxkeys, hncnotreg x hx⟩
            have := hcontra hxin
            rw [Finset.mem_sdiff] at this
            exact this.2 (Finset.mem_union_right _ hx)
        omega
      have hsub1 : nc ⊆ reg ∪ nc := Finset.subset_union_right
      have hkeys1 : ∀ e, e ∈ reg ∪ nc → e ∈ keysList entities := by
        intro e he
        rcases Finset.mem_union.1 he with h | h
        · exact hregkeys e h
        · exact hncsubkeys e h
      have hsat1 : ∀ e i p, (e, i) ∈ entities → i.parent = some p →
          p ∈ reg ∪ nc → e ∈ reg ∪ nc ∨ p ∈ nc := by
        intro e i p hent hp hpmem
        rcases Finset.mem_union.1 hpmem with hpreg | hpnc
        · rcases hsat e i p hent hp hpreg with he | hpnew
          · exact Or.inl (Finset.mem_union_left _ he)
          · by_cases hereg : e ∈ reg
            · exact Or.inl (Finset.mem_union_left _ hereg)
            · exact Or.inl (Finset.mem_union_right _
                (mem_newConnected.2 ⟨i, p, hent, hp, hpnew, hereg⟩))
        · exact Or.inr hpnc
      have hsound1 : ∀ e, e ∈ reg ∪ nc → ReachesMain entities e := by
        intro e he
        rcases Finset.mem_union.1 he with h | h
        · exact hsound e h
        · obtain ⟨i, p, hent, hp, hpnew, _⟩ := mem_newConnected.1 h
          exact ReachesMain.step e i p hent hp (hsound p (hnewsub hpnew))
      obtain ⟨hsub', hkeys', hsat', hsound'⟩ :=
        ih (reg ∪ nc) nc hmeas hsub1 hkeys1 hsat1 hsound1
      rw [hstep]
      refine ⟨?_, hkeys', hsat', hsound'⟩
      exact fun y hy => hsub' (Finset.mem_union_left _ hy)

end Entity

namespace Entity

theorem topic_id_main_of_parent_none (a : Action) (h : a.parent_topic_id = none) :
    a.topic_id = mainId := by
  rcases a with ⟨t, p⟩ | ⟨t, p⟩ | t | t <;>
    rcases t with _ | ⟨c, t'⟩ <;>
      first
        | rfl
        | (rcases t' with _ | ⟨c2, t''⟩ <;>
            simp [Action.parent_topic_id, Action.parentPair, Action.target] at h ⊢)

theorem parent_topic_id_pdet (a : Action) (h : a.topic_id ≠ mainId) :
    a.parent_topic_id = pdet a.topic_id := by
  rcases a with ⟨t, pr⟩ | ⟨t, pr⟩ | t | t <;>
    rcases t with _ | ⟨c, t'⟩
  case AddDevice.nil =>
    exact absurd rfl h
  case AddDevice.cons =>
    rcases t' with _ | ⟨c2, t''⟩
    · simp [Action.parent_topic_id, Action.parentPair, Action.target, Action.topic_id,
        pdet, mainId]
    · have hne : (⟨"device".data, c :: c2 :: t'', [], []⟩ : ETId) ≠ mainId := h
      simp only [Action.parent_topic_id, Action.parentPair, Action.target,
        Action.topic_id, pdet, Option.map_some]
      rw [if_neg hne]
      simp [List.length_cons]
  case AddService.nil =>
    exact absurd rfl h
  case AddService.cons =>
    rcases t' with _ | ⟨c2, t''⟩
    · simp [Action.parent_topic_id, Action.parentPair, Action.target, Action.topic_id,
        pdet, mainId]
    · simp only [Action.parent_topic_id, Action.parentPair, Action.target,
        Action.topic_id, pdet, Option.map_some]
      rw [if_neg (by simp [mainId])]
      simp
  case RemDevice.nil =>
    exact absurd rfl h
  case RemDevice.cons =>
    rcases t' with _ | ⟨c2, t''⟩
    · simp [Action.parent_topic_id, Action.parentPair, Action.target, Action.topic_id,
        pdet, mainId]
    · have hne : (⟨"device".data, c :: c2 :: t'', [], []⟩ : ETId) ≠ mainId := h
      simp only [Action.parent_topic_id, Action.parentPair, Action.target,
        Action.topic_id, pdet, Option.map_some]
      rw [if_neg hne]
      simp [List.length_cons]
  case RemService.nil =>
    exact absurd rfl h
  case RemService.cons =>
    rcases t' with _ | ⟨c2, t''⟩
    · simp [Action.parent_topic_id, Action.parentPair, Action.target, Action.topic_id,
        pdet, mainId]
    · simp only [Action.parent_topic_id, Action.parentPair, Action.target,
        Action.topic_id, pdet, Option.map_some]
      rw [if_neg (by simp [mainId])]
      simp

end Entity

namespace Entity

/-- The state invariants of the entity store model maintained by lax
registrations: the main device is recorded and registered, keys are unique,
the recorded parent of an entity is determined by its topic identifier, the
registered set is a saturated subset of the recorded entities, and every
registered entity has a parent chain down to the main device. -/
structure StoreInv (st : StoreState) : Prop where
  main_mem : ∃ i, (mainId, i) ∈ st.entities ∧ i.parent = none
  main_reg : mainId ∈ st.registered
  nodup : (keysList st.entities).Nodup
  parent_det : ∀ e i, (e, i) ∈ st.entities → i.parent = pdet e
  reg_sub : ∀ e, e ∈ st.registered → e ∈ keysList st.entities
  saturated : ∀ e i p, (e, i) ∈ st.entities → i.parent = some p →
    p ∈ st.registered → e ∈ st.registered
  sound : ∀ e, e ∈ st.registered → ReachesMain st.entities e

theorem initialState_eq :
    initialState = ⟨[(mainId, ⟨.MainDevice, none, []⟩)], {mainId}⟩ := by decide

theorem StoreInv_initial : StoreInv initialState := by
  rw [initialState_eq]
  refine ⟨⟨⟨.MainDevice, none, []⟩, by simp, rfl⟩, by simp, by simp [keysList], ?_, ?_, ?_, ?_⟩
  · intro e i hmem
    simp only [List.mem_singleton, Prod.mk.injEq] at hmem
    obtain ⟨rfl, rfl⟩ := hmem
    rfl
  · intro e he
    simp only [Finset.mem_singleton] at he
    subst he
    simp [keysList]
  · intro e i p hmem hp _
    simp only [List.mem_singleton, Prod.mk.injEq] at hmem
    obtain ⟨rfl, rfl⟩ := hmem
    cases hp
  · intro e he
    simp only [Finset.mem_singleton] at he
    subst he
    exact ReachesMain.base ⟨.MainDevice, none, []⟩ (by simp)

theorem containsKey_iff {entities : List (ETId × EntityInfo)} {t : ETId} :
    containsKey entities t = true ↔ t ∈ keysList entities := by
  unfold containsKey keysList
  rw [List.any_eq_true]
  constructor
  · rintro ⟨⟨e, i⟩, hmem, heq⟩
    rw [beq_iff_eq] at heq
    subst heq
    exact List.mem_map.2 ⟨(e, i), hmem, rfl⟩
  · intro h
    obtain ⟨⟨e, i⟩, hmem, rfl⟩ := List.mem_map.1 h
    exact ⟨(e, i), hmem, by rw [beq_iff_eq]⟩

/-- Under MQTT, `apply` on an addition never checks the parent and never sends
anything back. -/
theorem apply_mqtt_add_eq (st : StoreState) (a : Action)
    (hAdd : (∃ t p, a = .AddDevice t p) ∨ (∃ t p, a = .AddService t p)) :
    apply st .MQTT a =
      if containsKey st.entities a.topic_id then (st, ∅)
      else
        ((register
            ⟨st.entities ++
              [(a.topic_id, ⟨a.target_type, a.parent_topic_id, a.properties⟩)],
              st.registered⟩ a.topic_id a.parent_topic_id).1, ∅) := by
  have hite : ∀ x : Finset ETId, (if Protocol.MQTT = Protocol.HTTP then x else ∅) = ∅ := by
    intro x
    rw [if_neg]
    intro h
    cases h
  rcases hAdd with ⟨t, p, rfl⟩ | ⟨t, p, rfl⟩
  all_goals
    simp only [apply]
    rcases hpar : Action.parent_topic_id _ with _ | q
  all_goals
    simp only [hpar, show decide (Protocol.MQTT = Protocol.HTTP) = false from rfl,
      Bool.false_and, Bool.false_eq_true, if_false, hite]

theorem StoreInv_apply_mqtt_add (st : StoreState) (a : Action) (hInv : StoreInv st)
    (hAdd : (∃ t p, a = .AddDevice t p) ∨ (∃ t p, a = .AddService t p)) :
    StoreInv (apply st .MQTT a).1 := by
  rw [apply_mqtt_add_eq st a hAdd]
  by_cases hck : containsKey st.entities a.topic_id = true
  · simp only [hck, if_true]
    exact hInv
  · have hck' : containsKey st.entities a.topic_id = false := by
      simpa using hck
    simp only [hck', Bool.false_eq_true, if_false]
    have htnotkeys : a.topic_id ∉ keysList st.entities :=
      fun hmem => hck (containsKey_iff.2 hmem)
    have htne : a.topic_id ≠ mainId := by
      intro hEq
      obtain ⟨i0, hi0, _⟩ := hInv.main_mem
      exact htnotkeys (by rw [hEq]; exact List.mem_map.2 ⟨(mainId, i0), hi0, rfl⟩)
    have hpdet : a.parent_topic_id = pdet a.topic_id := parent_topic_id_pdet a htne
    rcases hparc : a.parent_topic_id with _ | q
    · exact absurd (topic_id_main_of_parent_none a hparc) htne
    have hinfo : (⟨a.target_type, some q, a.properties⟩ : EntityInfo).parent =
        pdet a.topic_id := by
      have := hpdet
      rw [hparc] at this
      exact this
    have hkeys1 : keysList (st.entities ++
        [(a.topic_id, (⟨a.target_type, some q, a.properties⟩ : EntityInfo))]) =
        keysList st.entities ++ [a.topic_id] := by
      simp [keysList]
    have hmemE1 : ∀ e (i : EntityInfo),
        (e, i) ∈ st.entities ++
          [(a.topic_id, (⟨a.target_type, some q, a.properties⟩ : EntityInfo))] ↔
        (e, i) ∈ st.entities ∨
          (e = a.topic_id ∧ i = ⟨a.target_type, some q, a.properties⟩) := by
      intro e i
      rw [List.mem_append, List.mem_singleton, Prod.mk.injEq]
    have hnodup1 : (keysList (st.entities ++
        [(a.topic_id, (⟨a.target_type, some q, a.properties⟩ : EntityInfo))])).Nodup := by
      rw [hkeys1]
      exact List.Nodup.append hInv.nodup (List.nodup_singleton _)
        (by intro x hx hy
            rw [List.mem_singleton] at hy
            subst hy
            exact htnotkeys hx)
    have hdet1 : ∀ e (i : EntityInfo),
        (e, i) ∈ st.entities ++
          [(a.topic_id, (⟨a.target_type, some q, a.properties⟩ : EntityInfo))] →
        i.parent = pdet e := by
      intro e i hmem
      rcases (hmemE1 e i).1 hmem with h | ⟨rfl, rfl⟩
      · exact hInv.parent_det e i h
      · exact hinfo
    have hmainE1 : ∃ i, (mainId, i) ∈ st.entities ++
        [(a.topic_id, (⟨a.target_type, some q, a.properties⟩ : EntityInfo))] ∧
        i.parent = none := by
      obtain ⟨i0, hi0, hp0⟩ := hInv.main_mem
      exact ⟨i0, List.mem_append_left _ hi0, hp0⟩
    have hsubE1 : ∀ x, x ∈ st.entities → x ∈ st.entities ++
        [(a.topic_id, (⟨a.target_type, some q, a.properties⟩ : EntityInfo))] :=
      fun x hx => List.mem_append_left _ hx
    rw [register]
    by_cases hq : q ∈ st.registered
    · rw [if_pos (show (match some q with
        | none => true
        | some p => decide (p ∈ st.registered)) = true by simpa using hq)]
      have hspec := cascadeReg_spec
        (st.entities ++ [(a.topic_id, (⟨a.target_type, some q, a.properties⟩ : EntityInfo))])
        ((st.entities ++
          [(a.topic_id, (⟨a.target_type, some q, a.properties⟩ : EntityInfo))]).length + 1)
        (insert a.topic_id st.registered) {a.topic_id}
        (by
          have h1 : ((keysList (st.entities ++
              [(a.topic_id, (⟨a.target_type, some q, a.properties⟩ : EntityInfo))])).toFinset \ insert a.topic_id st.registered).card ≤
              (keysList (st.entities ++
              [(a.topic_id, (⟨a.target_type, some q, a.properties⟩ : EntityInfo))])).toFinset.card :=
            Finset.card_le_card (Finset.sdiff_subset)
          have h2 : (keysList (st.entities ++
              [(a.topic_id, (⟨a.target_type, some q, a.properties⟩ : EntityInfo))])).toFinset.card ≤
              (keysList (st.entities ++
              [(a.topic_id, (⟨a.target_type, some q, a.properties⟩ : EntityInfo))])).length :=
            List.toFinset_card_le _
          have h3 : (keysList (st.entities ++
              [(a.topic_id, (⟨a.target_type, some q, a.properties⟩ : EntityInfo))])).length =
              (st.entities ++
              [(a.topic_id, (⟨a.target_type, some q, a.properties⟩ : EntityInfo))]).length := by
            simp [keysList]
          omega)
        (by simp)
        (by
          intro e he
          rcases Finset.mem_insert.1 he with rfl | he
          · rw [hkeys1]
            exact List.mem_append_right _ (List.mem_singleton.2 rfl)
          · rw [hkeys1]
            exact List.mem_append_left _ (hInv.reg_sub e he))
        (by
          intro e i pp hent hp hpmem
          rcases (hmemE1 e i).1 hent with hold | ⟨rfl, rfl⟩
          · rcases Finset.mem_insert.1 hpmem with rfl | hpreg
            · exact Or.inr (Finset.mem_singleton.2 rfl)
            · exact Or.inl (Finset.mem_insert_of_mem
                (hInv.saturated e i pp hold hp hpreg))
          · exact Or.inl (Finset.mem_insert_self _ _)
        )
        (by
          intro e he
          rcases Finset.mem_insert.1 he with rfl | he
          · refine ReachesMain.step a.topic_id (⟨a.target_type, some q, a.properties⟩ : EntityInfo) q
              (List.mem_append_right _ (List.mem_singleton.2 rfl)) ?_ ?_
            · rfl
            · exact ReachesMain_mono hsubE1 (hInv.sound q hq)
          · exact ReachesMain_mono hsubE1 (hInv.sound e he))
      obtain ⟨hsub', hkeys', hsat', hsound'⟩ := hspec
      refine ⟨hmainE1, ?_, hnodup1, hdet1, hkeys', hsat', hsound'⟩
      exact hsub' (Finset.mem_insert_of_mem hInv.main_reg)
    · rw [if_neg (show ¬ (match some q with
        | none => true
        | some p => decide (p ∈ st.registered)) = true by simpa using hq)]
      refine ⟨hmainE1, hInv.main_reg, hnodup1, hdet1, ?_, ?_, ?_⟩
      · intro e he
        rw [hkeys1]
        exact List.mem_append_left _ (hInv.reg_sub e he)
      · intro e i pp hent hp hpreg
        rcases (hmemE1 e i).1 hent with hold | ⟨rfl, rfl⟩
        · exact hInv.saturated e i pp hold hp hpreg
        · have hp2 : some q = some pp := hp
          injection hp2 with hp'
          subst hp'
          exact absurd hpreg hq
      · intro e he
        exact ReachesMain_mono hsubE1 (hInv.sound e he)

theorem register_entities (st1 : StoreState) (t : ETId) (par : Option ETId) :
    ((register st1 t par).1).entities = st1.entities := by
  unfold register
  split
  · rfl
  · rfl

theorem apply_mqtt_add_keys (st : StoreState) (a : Action)
    (hAdd : (∃ t p, a = .AddDevice t p) ∨ (∃ t p, a = .AddService t p)) :
    (keysList (apply st .MQTT a).1.entities).toFinset =
      insert a.topic_id (keysList st.entities).toFinset := by
  rw [apply_mqtt_add_eq st a hAdd]
  by_cases hck : containsKey st.entities a.topic_id = true
  · simp only [hck, if_true]
    have hmem : a.topic_id ∈ (keysList st.entities).toFinset :=
      List.mem_toFinset.2 (containsKey_iff.1 hck)
    rw [Finset.insert_eq_self.2 hmem]
  · have hck' : containsKey st.entities a.topic_id = false := by simpa using hck
    simp only [hck', Bool.false_eq_true, if_false]
    rw [register_entities]
    show (keysList (st.entities ++
      [(a.topic_id, ⟨a.target_type, a.parent_topic_id, a.properties⟩)])).toFinset = _
    rw [show keysList (st.entities ++
        [(a.topic_id, ⟨a.target_type, a.parent_topic_id, a.properties⟩)]) =
        keysList st.entities ++ [a.topic_id] by simp [keysList]]
    rw [List.toFinset_append]
    simp only [List.toFinset_cons, List.toFinset_nil, insert_emptyc_eq]
    rw [Finset.union_comm, ← Finset.insert_eq]


theorem StoreInv_applyAll_aux :
    ∀ (l : List (Protocol × Action)) (st : StoreState), StoreInv st →
      (∀ pa ∈ l, pa.1 = Protocol.MQTT ∧
        ((∃ t p, pa.2 = Action.AddDevice t p) ∨ (∃ t p, pa.2 = Action.AddService t p))) →
      StoreInv (l.foldl (fun st pa => (apply st pa.1 pa.2).1) st) := by
  intro l
  induction l with
  | nil => intro st h _; exact h
  | cons pa rest ih =>
    intro st h hall
    obtain ⟨hproto, hadd⟩ := hall pa (List.mem_cons_self _ _)
    rw [List.foldl_cons]
    refine ih _ ?_ (fun x hx => hall x (List.mem_cons_of_mem _ hx))
    obtain ⟨proto, act⟩ := pa
    cases hproto
    exact StoreInv_apply_mqtt_add st act h hadd

theorem keys_applyAll_aux :
    ∀ (l : List (Protocol × Action)) (st : StoreState),
      (∀ pa ∈ l, pa.1 = Protocol.MQTT ∧
        ((∃ t p, pa.2 = Action.AddDevice t p) ∨ (∃ t p, pa.2 = Action.AddService t p))) →
      (keysList (l.foldl (fun st pa => (apply st pa.1 pa.2).1) st).entities).toFinset =
        (keysList st.entities).toFinset ∪ (l.map (fun pa => pa.2.topic_id)).toFinset := by
  intro l
  induction l with
  | nil => intro st _; simp
  | cons pa rest ih =>
    intro st hall
    obtain ⟨hproto, hadd⟩ := hall pa (List.mem_cons_self _ _)
    rw [List.foldl_cons]
    rw [ih _ (fun x hx => hall x (List.mem_cons_of_mem _ hx))]
    obtain ⟨proto, act⟩ := pa
    cases hproto
    rw [apply_mqtt_add_keys st act hadd]
    rw [List.map_cons, List.toFinset_cons]
    rw [Finset.insert_union, Finset.union_insert]

theorem StoreInv_char (st : StoreState) (hInv : StoreInv st) :
    ∀ e, e ∈ st.registered ↔ ReachesMain st.entities e := by
  intro e
  constructor
  · exact hInv.sound e
  · intro h
    induction h with
    | base info hmem => exact hInv.main_reg
    | step e info p hmem hp _ ih => exact hInv.saturated e info p hmem hp ih

theorem ReachesMain_congr (E E' : List (ETId × EntityInfo))
    (hdet : ∀ e i, (e, i) ∈ E → i.parent = pdet e)
    (hdet' : ∀ e i, (e, i) ∈ E' → i.parent = pdet e)
    (hkeys : ∀ x, x ∈ keysList E ↔ x ∈ keysList E') :
    ∀ e, ReachesMain E e → ReachesMain E' e := by
  intro e h
  induction h with
  | base info hmem =>
    have hm : mainId ∈ keysList E' :=
      (hkeys _).1 (List.mem_map.2 ⟨(mainId, info), hmem, rfl⟩)
    obtain ⟨⟨e1, i1⟩, hmem1, heq⟩ := List.mem_map.1 hm
    cases heq
    exact ReachesMain.base i1 hmem1
  | step e info p hmem hp _ ih =>
    have hpd : pdet e = some p := by rw [← hdet e info hmem, hp]
    have he : e ∈ keysList E' :=
      (hkeys _).1 (List.mem_map.2 ⟨(e, info), hmem, rfl⟩)
    obtain ⟨⟨e1, i1⟩, hmem1, heq⟩ := List.mem_map.1 he
    cases heq
    have hp1 : i1.parent = some p := by rw [hdet' _ i1 hmem1, hpd]
    exact ReachesMain.step _ i1 p hmem1 hp1 ih

end Entity

/-- Claim C1: for every finite sequence of entity registrations delivered via
the lax (MQTT) protocol, applying the sequence in any permutation yields the
same final set of registered entities, and that set consists exactly of the
entities whose transitive parent chain terminates at the main device. -/
theorem C1_lax_registration_order :
    ∀ (l l2 : List (Entity.Protocol × Entity.Action)),
      (∀ pa ∈ l, pa.1 = Entity.Protocol.MQTT ∧
        ((∃ t p, pa.2 = Entity.Action.AddDevice t p) ∨
          (∃ t p, pa.2 = Entity.Action.AddService t p))) →
      l.Perm l2 →
      (Entity.applyAll l).registered = (Entity.applyAll l2).registered ∧
      (∀ e, e ∈ (Entity.applyAll l).registered ↔
        Entity.ReachesMain (Entity.applyAll l).entities e) := by
  intro l l2 hall hperm
  have hall2 : ∀ pa ∈ l2, pa.1 = Entity.Protocol.MQTT ∧
      ((∃ t p, pa.2 = Entity.Action.AddDevice t p) ∨
        (∃ t p, pa.2 = Entity.Action.AddService t p)) :=
    fun pa hpa => hall pa (hperm.mem_iff.2 hpa)
  have hInv1 : Entity.StoreInv (Entity.applyAll l) :=
    Entity.StoreInv_applyAll_aux l Entity.initialState Entity.StoreInv_initial hall
  have hInv2 : Entity.StoreInv (Entity.applyAll l2) :=
    Entity.StoreInv_applyAll_aux l2 Entity.initialState Entity.StoreInv_initial hall2
  have hkeys1 : (Entity.keysList (Entity.applyAll l).entities).toFinset =
      (Entity.keysList Entity.initialState.entities).toFinset ∪
        (l.map (fun pa => pa.2.topic_id)).toFinset :=
    Entity.keys_applyAll_aux l Entity.initialState hall
  have hkeys2 : (Entity.keysList (Entity.applyAll l2).entities).toFinset =
      (Entity.keysList Entity.initialState.entities).toFinset ∪
        (l2.map (fun pa => pa.2.topic_id)).toFinset :=
    Entity.keys_applyAll_aux l2 Entity.initialState hall2
  have hmapsame : (l.map (fun pa => pa.2.topic_id)).toFinset =
      (l2.map (fun pa => pa.2.topic_id)).toFinset :=
    List.toFinset_eq_of_perm _ _ (hperm.map _)
  have hkeyiff : ∀ x, x ∈ Entity.keysList (Entity.applyAll l).entities ↔
      x ∈ Entity.keysList (Entity.applyAll l2).entities := by
    intro x
    rw [← List.mem_toFinset, ← List.mem_toFinset, hkeys1, hkeys2, hmapsame]
  have hchar1 := Entity.StoreInv_char _ hInv1
  have hchar2 := Entity.StoreInv_char _ hInv2
  refine ⟨?_, hchar1⟩
  apply Finset.ext
  intro e
  rw [hchar1 e, hchar2 e]
  constructor
  · exact fun h => Entity.ReachesMain_congr _ _ hInv1.parent_det hInv2.parent_det hkeyiff e h
  · exact fun h => Entity.ReachesMain_congr _ _ hInv2.parent_det hInv1.parent_det
      (fun x => (hkeyiff x).symm) e h

/-- Witness for C1: a service arriving before its parent device, in both orders. -/
theorem C1_witness :
    (Entity.applyAll [(.MQTT, .AddService "ab".data []), (.MQTT, .AddDevice "a".data [])]).registered =
      (Entity.applyAll [(.MQTT, .AddDevice "a".data []), (.MQTT, .AddService "ab".data [])]).registered ∧
    (∀ e, e ∈ (Entity.applyAll
        [(.MQTT, .AddService "ab".data []), (.MQTT, .AddDevice "a".data [])]).registered ↔
      Entity.ReachesMain (Entity.applyAll
        [(.MQTT, .AddService "ab".data []), (.MQTT, .AddDevice "a".data [])]).entities e) := by
  refine C1_lax_registration_order _ _ ?_ (List.Perm.swap _ _ _)
  intro pa hpa
  rcases List.mem_cons.1 hpa with rfl | hpa'
  · exact ⟨rfl, Or.inr ⟨_, _, rfl⟩⟩
  · rcases List.mem_cons.1 hpa' with rfl | h
    · exact ⟨rfl, Or.inl ⟨_, _, rfl⟩⟩
    · cases h

/-- Counterexample to claim C3 as stated: a strict (HTTP) registration of a
device whose child is already parked in the pending set succeeds and returns
the device together with the promoted child, not the singleton of the
newly-registered topic id. -/
theorem C3_counterexample :
    (Entity.apply (Entity.applyAll [(.MQTT, .AddDevice "ab".data [])]) .HTTP
        (.AddDevice "a".data [])).2 ≠
      {(Entity.Action.AddDevice "a".data []).topic_id} ∧
    (Entity.apply (Entity.applyAll [(.MQTT, .AddDevice "ab".data [])]) .HTTP
        (.AddDevice "a".data [])).2 =
      {⟨"device".data, "a".data, [], []⟩, ⟨"device".data, "ab".data, [], []⟩} := by
  constructor
  · decide
  · decide

/-- Claim C3, corrected: a strict (HTTP) registration whose declared parent is
not yet registered fails, leaving the store unchanged and registering nothing;
a successful strict registration of a new entity returns a set containing the
newly-registered topic id (the set may also contain previously-pending
entities promoted by the cascade). -/
theorem C3_strict_registration :
    ∀ (st : Entity.StoreState) (a : Entity.Action) (q : Entity.ETId),
      ((∃ t p, a = Entity.Action.AddDevice t p) ∨
        (∃ t p, a = Entity.Action.AddService t p)) →
      a.parent_topic_id = some q →
      ((q ∉ st.registered → Entity.apply st .HTTP a = (st, ∅)) ∧
        (q ∈ st.registered → Entity.containsKey st.entities a.topic_id = false →
          a.topic_id ∈ (Entity.apply st .HTTP a).2)) := by
  intro st a q hAdd hpar
  constructor
  · intro hq
    rcases hAdd with ⟨t, p, rfl⟩ | ⟨t, p, rfl⟩ <;>
      (simp only [Entity.apply, hpar]
       rw [if_pos (by simp [hq])])
  · intro hq hck
    rcases hAdd with ⟨t, p, rfl⟩ | ⟨t, p, rfl⟩ <;>
      (simp only [Entity.apply, hpar]
       rw [if_neg (by simp [hq]), if_neg (by simp [hck])]
       rw [Entity.register]
       rw [if_pos (by simpa using hq)]
       simp only [if_pos rfl]
       exact Entity.cascadeReg_acc_sub _ _ _ _ (Finset.mem_singleton_self _))

/-- Witness for C3: registering a child under an unregistered parent on the
empty store fails and changes nothing; registering a child of the main device
on the initial store returns a set containing it. -/
theorem C3_witness :
    Entity.apply (⟨[], ∅⟩ : Entity.StoreState) .HTTP (.AddDevice "a".data []) =
      ((⟨[], ∅⟩ : Entity.StoreState), ∅) ∧
    (Entity.Action.AddDevice "a".data []).topic_id ∈
      (Entity.apply Entity.initialState .HTTP (.AddDevice "a".data [])).2 := by
  constructor
  · exact (C3_strict_registration ⟨[], ∅⟩ (.AddDevice "a".data []) Entity.mainId
      (Or.inl ⟨_, _, rfl⟩) rfl).1 (by decide)
  · exact (C3_strict_registration Entity.initialState (.AddDevice "a".data [])
      Entity.mainId (Or.inl ⟨_, _, rfl⟩) rfl).2 (by decide) (by decide)
